import Mathlib

/-!
Verification of the route-to-path expansion engine of `super-sitemap`
(`src/lib/sitemap.ts`).

JavaScript strings are embedded as `List Char` (`Str`).  The handful of fixed
regular expressions used by the source are embedded as explicit character-level
matchers; each definition carries the original regex in its doc comment.  The
user-supplied `excludeRoutePatterns` regexes are embedded as opaque predicates
`Str → Bool` (the engine only ever calls `.test`), and the host function
`String.prototype.localeCompare` is an opaque comparator parameter.
Route enumeration (`import.meta.glob`) is an external collaborator, passed in
as an explicit `allRoutes : List Str` argument.  Fallible generation returns
`Except Str`, mirroring thrown errors.

Numbers: list lengths and page numbers are far below 2^53, where JavaScript
float arithmetic on integers is exact, so `Nat` is used; `Math.ceil (n / m)`
on such integers is `(n + m - 1) / m`.
-/

namespace Sitemap

/-- JavaScript strings, embedded as lists of characters. -/
abbrev Str := List Char

/-- Lexicographic (code-unit) comparison of strings: the order used by the
default `Array.prototype.sort()` (routes are ASCII, so code units = code
points). -/
def lexLe : Str → Str → Bool
  | [], _ => true
  | _ :: _, [] => false
  | a :: xs, b :: ys => if a = b then lexLe xs ys else decide (a < b)

/-- Insert into a sorted list (used to model `Array.prototype.sort`; for a
total antisymmetric order the sorted permutation is unique, so this agrees
with the host sort). -/
def insertSorted (le : Str → Str → Bool) (x : Str) : List Str → List Str
  | [] => [x]
  | y :: rest => if le x y then x :: y :: rest else y :: insertSorted le x rest

/-- `Array.prototype.sort()` with the default (code-unit) comparator. -/
def sortLex (l : List Str) : List Str := l.foldr (insertSorted lexLe) []

/-- Does `needle` occur as a contiguous substring? -/
def containsStr (needle : Str) : Str → Bool
  | [] => needle.isEmpty
  | c :: rest => needle.isPrefixOf (c :: rest) || containsStr needle rest

/-- `String.prototype.indexOf`, as an `Option` (JS returns `-1` for none). -/
def indexOfStr (needle : Str) : Str → Option Nat
  | [] => if needle.isEmpty then some 0 else none
  | c :: rest =>
    if needle.isPrefixOf (c :: rest) then some 0
    else (indexOfStr needle rest).map (· + 1)

/-- `String.prototype.indexOf` with the JS `-1` convention. -/
def jsIndexOf (needle s : Str) : Int :=
  match indexOfStr needle s with
  | some i => (i : Int)
  | none => -1

/-- `String.prototype.slice(start, stop)`, including negative-index
normalization. -/
def jsSlice (s : Str) (start stop : Int) : Str :=
  let n : Int := s.length
  let st : Int := if start < 0 then max (n + start) 0 else min start n
  let en : Int := if stop < 0 then max (n + stop) 0 else min stop n
  if st < en then (s.take en.toNat).drop st.toNat else []

/-- `String.prototype.slice(start)` (to the end of the string). -/
def jsSliceFrom (s : Str) (start : Int) : Str := jsSlice s start s.length

/-- `String.prototype.split(sep)` for a single-character separator. -/
def splitChar (sep : Char) : Str → List Str
  | [] => [[]]
  | c :: rest =>
    if c = sep then [] :: splitChar sep rest
    else
      match splitChar sep rest with
      | h :: t => (c :: h) :: t
      | [] => [[c]]

/-- Value of a canonical decimal digit string (`Number(page)` on a string
accepted by `/^[1-9]\d*$/`). -/
def digitsToNat (s : Str) : Nat :=
  s.foldl (fun n c => n * 10 + (c.toNat - 48)) 0

/-- The test `/^[1-9]\d*$/.test(page)` from `response`. -/
def pageCanonical (s : Str) : Bool :=
  match s with
  | [] => false
  | c :: rest => (decide ('1' ≤ c) && decide (c ≤ '9'))
      && rest.all (fun d => decide ('0' ≤ d) && decide (d ≤ '9'))

def isLowerAlpha (c : Char) : Bool := decide ('a' ≤ c) && decide (c ≤ 'z')

/-- Length consumed by `lang(=[a-z]+)?` at the head of `s`, if it matches. -/
def langCoreLen (s : Str) : Option Nat :=
  if ("lang".toList).isPrefixOf s then
    match s.drop 4 with
    | '=' :: r2 =>
      let letters := r2.takeWhile isLowerAlpha
      if letters.isEmpty then some 4 else some (5 + letters.length)
    | _ => some 4
  else none

/-- Length of a match of `\[(\[lang(=[a-z]+)?\]|lang(=[a-z]+)?)\]` at the head
of `s` (the bracketed part of `langRegex`): `[[lang]]`, `[[lang=xx]]`,
`[lang]` or `[lang=xx]`. -/
def langBracketLen (s : Str) : Option Nat :=
  match s with
  | '[' :: rest =>
    let alt1 : Option Nat :=
      match rest with
      | '[' :: r2 =>
        match langCoreLen r2 with
        | some k => if ("]]".toList).isPrefixOf (r2.drop k) then some (k + 4) else none
        | none => none
      | _ => none
    match alt1 with
    | some n => some n
    | none =>
      match langCoreLen rest with
      | some k => if (rest.drop k).headD ' ' = ']' ∧ (rest.drop k) ≠ [] then some (k + 2) else none
      | none => none
  | _ => none

/-- Length of a match of `langRegex = /\/?\[(\[lang(=[a-z]+)?\]|lang(=[a-z]+)?)\]/`
at the head of `s` (optional leading `/`). -/
def langMatchAt (s : Str) : Option Nat :=
  match s with
  | '/' :: rest => (langBracketLen rest).map (· + 1)
  | _ => langBracketLen s

/-- First match of `langRegex` in `s`: `(index, length)` (models
`langRegex.exec(s)`). -/
def langFind : Str → Option (Nat × Nat)
  | [] => none
  | c :: rest =>
    match langMatchAt (c :: rest) with
    | some len => some (0, len)
    | none => (langFind rest).map (fun p => (p.1 + 1, p.2))

/-- `s.replace(langRegex, repl)`: replace the first `langRegex` match. -/
def langReplace (s repl : Str) : Str :=
  match langFind s with
  | some (i, len) => s.take i ++ repl ++ s.drop (i + len)
  | none => s

/-- First match of `langRegexNoPath = /\[(\[lang(=[a-z]+)?\]|lang(=[a-z]+)?)\]/`
(no optional leading slash). -/
def langFindNoPath : Str → Option (Nat × Nat)
  | [] => none
  | c :: rest =>
    match langBracketLen (c :: rest) with
    | some len => some (0, len)
    | none => (langFindNoPath rest).map (fun p => (p.1 + 1, p.2))

/-- `s.replace(langRegexNoPath, repl)`. -/
def langReplaceNoPath (s repl : Str) : Str :=
  match langFindNoPath s with
  | some (i, len) => s.take i ++ repl ++ s.drop (i + len)
  | none => s

/-- Match of `\[lang(=[a-z]+)?\](?!\])` (a required lang token, with the
negative lookahead) at the head of `s`. -/
def langRequiredBracket (s : Str) : Option Nat :=
  match s with
  | '[' :: rest =>
    match langCoreLen rest with
    | some k =>
      if (rest.drop k).headD ' ' = ']' ∧ (rest.drop k) ≠ [] ∧ (rest.drop (k + 1)).headD ' ' ≠ ']'
      then some (k + 2) else none
    | none => none
  | _ => none

/-- Match of `/\/?\[lang(=[a-z]+)?\](?!\])/` at the head of `s`. -/
def langRequiredAt (s : Str) : Option Nat :=
  match s with
  | '/' :: rest => (langRequiredBracket rest).map (· + 1)
  | _ => langRequiredBracket s

/-- `hasLangRequired = /\/?\[lang(=[a-z]+)?\](?!\])/.exec(path)` used as a
boolean in `processPathsWithLang`. -/
def hasLangRequired : Str → Bool
  | [] => false
  | c :: rest => (langRequiredAt (c :: rest)).isSome || hasLangRequired rest

example : langFind ("/[[lang]]/about".toList) = some (0, 9) := by decide

example : langReplace ("/[[lang]]/about".toList) [] = ("/about".toList) := by decide

example : langReplace ("/x/[lang=en]/a".toList) [] = ("/x/a".toList) := by decide

example : langFind ("/foo/[[a]]".toList) = none := by decide

example : hasLangRequired ("/[lang]/x".toList) = true := by decide

example : hasLangRequired ("/[[lang]]/x".toList) = false := by decide

/-- First index of two adjacent `]` `]` characters. -/
def findAdj2 : Str → Option Nat
  | [] => none
  | c :: rest =>
    if c = ']' ∧ rest.headD ' ' = ']' then some 0
    else (findAdj2 rest).map (· + 1)

/-- First index of a `]`. -/
def findClose : Str → Option Nat
  | [] => none
  | c :: rest => if c = ']' then some 0 else (findClose rest).map (· + 1)

/-- Length of a match of `PARAM_TOKEN_REGEX = /(\[\[.+?\]\]|\[.+?\])/` at the
head of `s`.  Lazy `.+?` means: the closing bracket(s) are the first ones at
distance ≥ 1 past the content start.  When the string starts with `[[`,
alternative 1 (`\[\[.+?\]\]`, content after the second bracket, closed by the
first adjacent `]]`) is tried first; otherwise, or on its failure,
alternative 2 (`\[.+?\]`, content after the first bracket, closed by the
first `]` at distance ≥ 1) applies.  (Routes contain no newlines, so `.` is
any character here.) -/
def paramTokenLen (s : Str) : Option Nat :=
  match s with
  | [] => none
  | c :: rest =>
    if c = '[' then
      match (if rest.headD ' ' = '[' then
               (match rest.tail with
                | [] => none
                | _ :: r2 => findAdj2 r2)
             else none) with
      | some j => some (j + 1 + 4)
      | none => (findClose rest.tail).map (fun j => j + 1 + 2)
    else none

/-- `routeSansLang.replace(PARAM_TOKEN_REGEX, () => vals[i++] || '')`: global
replace; the `i`-th match is replaced by `vals[i]`, with out-of-range and
empty values both becoming `''`.  Fuel is the string length (each step
consumes at least one character). -/
def replaceParamTokensAux : Nat → Str → List Str → Nat → Str
  | 0, s, _, _ => s
  | _ + 1, [], _, _ => []
  | fuel + 1, c :: rest, vals, i =>
    match paramTokenLen (c :: rest) with
    | some len => vals.getD i [] ++ replaceParamTokensAux fuel ((c :: rest).drop len) vals (i + 1)
    | none => c :: replaceParamTokensAux fuel rest vals i

def replaceParamTokens (s : Str) (vals : List Str) : Str :=
  replaceParamTokensAux s.length s vals 0

/-- Last index of a `]`. -/
def lastCloseIdx : Str → Option Nat
  | [] => none
  | c :: rest =>
    match lastCloseIdx rest with
    | some j => some (j + 1)
    | none => if c = ']' then some 0 else none

/-- `routeSansLang.replace(/\[.*\]/, v)`: replace the first (greedy) match,
which runs from the first `[` that has any later `]` up to the last `]`. -/
def replace1D (s : Str) (v : Str) : Str :=
  match s with
  | [] => []
  | '[' :: rest =>
    (match lastCloseIdx rest with
     | some j => v ++ rest.drop (j + 1)
     | none => '[' :: replace1D rest v)
  | c :: rest => c :: replace1D rest v

/-- Gap-closing bracket: is there a `]` at index ≥ 1 of `rest`? -/
def hasGapClose (rest : Str) : Bool :=
  match rest with
  | [] => false
  | _ :: r2 => r2.contains ']'

/-- The test `/.*(\[\[.+\]\]|\[.+\]).*/.test(s)` from the missing-paramValues
check: equivalent to "`s` contains a `[` followed, at distance ≥ 2, by a
`]`". -/
def tokenTest : Str → Bool
  | [] => false
  | '[' :: rest => hasGapClose rest || tokenTest rest
  | _ :: rest => tokenTest rest

/-- The test `/\[\[.*\]\]/.test(s)` from `processRoutesForOptionalParams`:
`s` contains `[[` followed (at distance ≥ 2) by `]]`. -/
def hasOptionalToken : Str → Bool
  | '[' :: '[' :: rest => containsStr ("]]".toList) rest
  | _ :: rest => hasOptionalToken rest
  | [] => false

/-- `x.replace(/\/\+page.*\.(svelte|md|svx)$/, '')` from `filterRoutes`:
if `s` ends in one of the extensions, returns the suffix length (dot
included). -/
def endsWithExt (s : Str) : Option Nat :=
  if (".svelte".toList).isSuffixOf s then some 7
  else if (".md".toList).isSuffixOf s then some 3
  else if (".svx".toList).isSuffixOf s then some 4
  else none

/-- `x.replace(/\/\+page.*\.(svelte|md|svx)$/, '')`: the leftmost `/+page`
occurrence anchors the match provided the extension dot lies at or after its
end; the whole match (to end of string) is removed. -/
def stripPageSuffix (s : Str) : Str :=
  match indexOfStr ("/+page".toList) s, endsWithExt s with
  | some i, some e => if i + 6 ≤ s.length - e then s.take i else s
  | _, _ => s

/-- `x.replaceAll(/\/\([^)]+\)/g, '')`: remove every `/(...)` group segment.
Fuel is the string length (each step consumes ≥ 1 character). -/
def stripGroupsAux : Nat → Str → Str
  | 0, s => s
  | _ + 1, [] => []
  | fuel + 1, '/' :: rest =>
    (match rest with
     | '(' :: r2 =>
       (match r2.dropWhile (· ≠ ')'), r2.takeWhile (· ≠ ')') with
        | ')' :: tail, _ :: _ => stripGroupsAux fuel tail
        | _, _ => '/' :: stripGroupsAux fuel rest)
     | _ => '/' :: stripGroupsAux fuel rest)
  | fuel + 1, c :: rest => c :: stripGroupsAux fuel rest

def stripGroups (s : Str) : Str := stripGroupsAux s.length s

/-- Insertion-ordered set (`Array.from(new Set(...))` and first-occurrence
deduplication): keeps the first occurrence of each element. -/
def dedupFirstAux (seen : List Str) : List Str → List Str
  | [] => []
  | x :: rest =>
    if x ∈ seen then dedupFirstAux seen rest
    else x :: dedupFirstAux (x :: seen) rest

def dedupFirst (l : List Str) : List Str := dedupFirstAux [] l

example : paramTokenLen ("[[a]]/x".toList) = some 5 := by decide

example : paramTokenLen ("[slug]".toList) = some 6 := by decide

example : replaceParamTokens ("/blog/[slug]".toList) [("hi".toList)]
    = ("/blog/hi".toList) := by decide

example : replaceParamTokens ("/c/[x]/[y]".toList) [("a".toList)]
    = ("/c/a/".toList) := by decide

example : replace1D ("/c/[x]/[y]".toList) ("a".toList) = ("/c/a".toList) := by decide

example : tokenTest ("/blog/[slug]".toList) = true := by decide

example : tokenTest ("/blog".toList) = false := by decide

example : hasOptionalToken ("/foo/[[a]]".toList) = true := by decide

example : stripPageSuffix ("/about/+page.svelte".toList) = ("/about".toList) := by decide

example : stripPageSuffix ("/+page.svelte".toList) = [] := by decide

example : stripGroups ("/(public)/about".toList) = ("/about".toList) := by decide

example : stripGroups ("/(a)/(b)/x".toList) = ("/x".toList) := by decide

/-- `Alternate = { lang: string; path: string }`. -/
structure Alternate where
  lang : Str
  path : Str
deriving DecidableEq, Repr

/-- `LangConfig = { default: string; alternates: string[] }`. -/
structure LangConfig where
  dflt : Str
  alternates : List Str
deriving DecidableEq, Repr

/-- `PathObj`.  `changefreq` and `priority` are carried as opaque strings
(the engine never computes with them). -/
structure PathObj where
  path : Str
  lastmod : Option Str := none
  changefreq : Option Str := none
  priority : Option Str := none
  alternates : Option (List Alternate) := none
deriving DecidableEq, Repr

/-- `ParamValue = { values; lastmod?; priority?; changefreq? }`. -/
structure ParamValue where
  values : List Str
  lastmod : Option Str := none
  priority : Option Str := none
  changefreq : Option Str := none
deriving DecidableEq, Repr

/-- One value of the `ParamValues` record: `ParamValue[] | string[] |
string[][]` (the TS type is a union of homogeneous arrays).  The source
distinguishes the shapes by inspecting element 0; on an empty array it falls
into the 1-D branch, which produces the same (empty) output as the other
branches, so matching on the tag is observationally faithful. -/
inductive PVal where
  | objs (items : List ParamValue)
  | arr2 (rows : List (List Str))
  | arr1 (vs : List Str)
deriving DecidableEq, Repr

/-- `paramValues`: a JS object, i.e. an insertion-ordered list of distinct
keys. -/
abbrev ParamValues := List (Str × PVal)

/-- The first `.map` of `filterRoutes`: remove the `/src/routes` prefix
(11 characters), the `/+page*.(svelte|md|svx)` suffix (with the trailing
slash), and normalize an emptied result to `/`. -/
def normalizeRoute (x : Str) : Str :=
  let x1 := x.drop 11
  let x2 := stripPageSuffix x1
  if x2.isEmpty then ("/".toList) else x2

/-- The second `.map` of `filterRoutes`: strip `/(group)` segments and
normalize an emptied result to `/`. -/
def stripGroupsRoute (x : Str) : Str :=
  let x1 := stripGroups x
  if x1.isEmpty then ("/".toList) else x1

/-- `filterRoutes(routes, excludeRoutePatterns)`: strip the `/src/routes`
prefix and `+page*.svelte|md|svx` suffix and the trailing slash, drop routes
matching an exclude pattern, strip `(group)` segments, and sort. -/
def filterRoutes (routes : List Str) (excludeRoutePatterns : List (Str → Bool)) : List Str :=
  let stage2 := (routes.map normalizeRoute).filter
    (fun (x : Str) => !(excludeRoutePatterns.any (fun pat => pat x)))
  sortLex (stage2.map stripGroupsRoute)

/-- `results[j] = v` in JS, where `j ≤ results.length` always holds in
`processOptionalParams` (assignment at the length appends). -/
def setOrPush (l : List Str) (j : Nat) (v : Str) : List Str :=
  if j < l.length then l.set j v else l ++ [v]

/-- `if (!results[j]) results[j] = results[j - 1]` (seeding a new variant;
`!x` is JS-falsy for both a missing slot and the empty string). -/
def seedResults (results : List Str) (j : Nat) : List Str :=
  if (results.getD j []).isEmpty then setOrPush results j (results.getD (j - 1) [])
  else results

/-- The segment loop of `processOptionalParams`. -/
def optLoop : List Str → List Str → Nat → List Str
  | [], results, _ => results
  | seg :: rest, results, j =>
    optLoop rest
      (setOrPush (seedResults results j) j ((seedResults results j).getD j [] ++ '/' :: seg))
      (if ("[[".toList).isPrefixOf seg then j + 1 else j)

/-- `processOptionalParams(originalRoute)`: expand trailing optional tokens
into all router-valid variants. -/
def processOptionalParams (originalRoute : Str) : List Str :=
  let hasLang := langFind originalRoute
  let route := match hasLang with
    | some _ => langReplace originalRoute []
    | none => originalRoute
  let results0 := [jsSlice route 0 (jsIndexOf ("[[".toList) route - 1)]
  let remaining := jsSliceFrom route (jsIndexOf ("[[".toList) route)
  let segments := (splitChar '/' remaining).filter (fun x => !x.isEmpty)
  let results1 := optLoop segments results0 1
  let results2 := match hasLang with
    | some (idx, len) =>
      let lng := (originalRoute.drop idx).take len
      results1.map (fun (r : Str) => r.take idx ++ lng ++ r.drop idx)
    | none => results1
  match results2 with
  | r0 :: rest => if r0.isEmpty then ("/".toList) :: rest else r0 :: rest
  | [] => []

/-- `processRoutesForOptionalParams(routes)`. -/
def processRoutesForOptionalParams (routes : List Str) : List Str :=
  dedupFirst (routes.flatMap (fun route =>
    if hasOptionalToken (langReplace route []) then processOptionalParams route
    else [route]))

/-- `Array.prototype.indexOf(key)` (first index of `key`, as an `Option`). -/
def jsArrayIndexOf (key : Str) : List Str → Option Nat
  | [] => none
  | a :: t => if a = key then some 0 else (jsArrayIndexOf key t).map (· + 1)

/-- `routes.splice(routes.indexOf(key), 1)`: removes the first occurrence of
`key`; when `key` is absent, `indexOf` is `-1` and `splice(-1, 1)` removes the
last element. -/
def spliceRemove (routes : List Str) (key : Str) : List Str :=
  match jsArrayIndexOf key routes with
  | some i => routes.eraseIdx i
  | none => routes.eraseIdx (routes.length - 1)

/-- One iteration of the `paramValues` loop of
`generatePathsWithParamValues`: state is
(pathsWithLang, pathsWithoutLang, routes). -/
def pvStep (dc dp : Option Str)
    (st : List PathObj × List PathObj × List Str) (kv : Str × PVal) :
    List PathObj × List PathObj × List Str :=
  let key := kv.1
  let hasLang := langFind key
  let routeSansLang := langReplace key []
  let pathObjs : List PathObj :=
    match kv.2 with
    | .objs items => items.map (fun item =>
        { changefreq := match item.changefreq with | some c => some c | none => dc
          lastmod := item.lastmod
          path := replaceParamTokens routeSansLang item.values
          priority := match item.priority with | some p => some p | none => dp })
    | .arr2 rows => rows.map (fun row =>
        { changefreq := dc, lastmod := none, priority := dp
          path := replaceParamTokens routeSansLang row })
    | .arr1 vs => vs.map (fun v =>
        { changefreq := dc, lastmod := none, priority := dp
          path := replace1D routeSansLang v })
  match hasLang with
  | some (idx, len) =>
    let lng := (key.drop idx).take len
    (st.1 ++ pathObjs.map (fun p => { p with path := p.path.take idx ++ lng ++ p.path.drop idx }),
     st.2.1, spliceRemove st.2.2 key)
  | none => (st.1, st.2.1 ++ pathObjs, spliceRemove st.2.2 key)

/-- A "static" route (no tokens other than possibly `[[lang]]`) as a
`PathObj`. -/
def staticPathObj (dc dp : Option Str) (route : Str) : PathObj :=
  { changefreq := dc, lastmod := none, priority := dp, path := route }

/-- `generatePathsWithParamValues(routes, paramValues, defaultChangefreq,
defaultPriority)`.  Returns `(pathsWithLang, pathsWithoutLang)`, or the
thrown error. -/
def generatePathsWithParamValues (routes : List Str) (paramValues : ParamValues)
    (dc dp : Option Str) : Except Str (List PathObj × List PathObj) :=
  match paramValues.find? (fun kv => !(decide (kv.1 ∈ routes))) with
  | some _ => .error ("Sitemap: paramValues were provided for a route that does not exist within src/routes/".toList)
  | none =>
    let st := paramValues.foldl (pvStep dc dp) ([], [], routes)
    let routesRemaining := st.2.2
    let staticWithLang := (routesRemaining.filter (fun r => (langFind r).isSome)).map (staticPathObj dc dp)
    let staticWithoutLang := (routesRemaining.filter (fun r => !(langFind r).isSome)).map (staticPathObj dc dp)
    let pathsWithLang := staticWithLang ++ st.1
    let pathsWithoutLang := staticWithoutLang ++ st.2.1
    match routesRemaining.find? (fun route =>
        tokenTest (let r := langReplace route []; if r.isEmpty then ("/".toList) else r)) with
    | some _ => .error ("Sitemap: paramValues not provided for a parameterized route".toList)
    | none => .ok (pathsWithLang, pathsWithoutLang)

/-- The `variations` list built for a path in `processPathsWithLang`:
one `{lang, path}` per configured language (default first). -/
def variations (langConfig : LangConfig) (path : Str) : List Alternate :=
  let rpath :=
    if hasLangRequired path then langReplace path ('/' :: langConfig.dflt)
    else (let r := langReplace path []; if r.isEmpty then ("/".toList) else r)
  { lang := langConfig.dflt, path := rpath }
    :: langConfig.alternates.map (fun l => { lang := l, path := langReplaceNoPath path l })

/-- `processPathsWithLang(pathObjs, langConfig)`: one `PathObj` per configured
language for each input path, each carrying the full `variations` list as its
`alternates`. -/
def processPathsWithLang (pathObjs : List PathObj) (langConfig : LangConfig) : List PathObj :=
  if pathObjs.isEmpty then []
  else pathObjs.flatMap (fun pathObj =>
    let vars := variations langConfig pathObj.path
    vars.map (fun x => { pathObj with alternates := some vars, path := x.path }))

/-- `uniquePaths.set(pathObj.path, pathObj)` on a JS `Map`: updating an
existing key keeps its position; a new key is appended. -/
def mapSet (m : List (Str × PathObj)) (k : Str) (v : PathObj) : List (Str × PathObj) :=
  if m.any (fun e => e.1 = k) then m.map (fun e => if e.1 = k then (k, v) else e)
  else m ++ [(k, v)]

/-- `deduplicatePaths(pathObjs)`: deduplicate by `path`, last occurrence
wins, first-occurrence position kept (JS `Map` insertion order). -/
def deduplicatePaths (pathObjs : List PathObj) : List PathObj :=
  (pathObjs.foldl (fun m p => mapSet m p.path p) []).map (·.2)

/-- `generateAdditionalPaths({additionalPaths, defaultChangefreq,
defaultPriority})`. -/
def generateAdditionalPaths (additionalPaths : List Str) (dc dp : Option Str) : List PathObj :=
  additionalPaths.map (fun path =>
    { changefreq := dc, lastmod := none, priority := dp
      path := if path.headD ' ' = '/' then path else '/' :: path })

/-- `generatePaths(...)`.  `allRoutes` stands for the `import.meta.glob`
route enumeration (an external collaborator).  When `lang` is absent but
language-tokenized paths survive to `processPathsWithLang`, the source would
crash reading `langConfig.default` (a thrown `TypeError`), modelled as an
error. -/
def generatePaths (allRoutes : List Str) (excludeRoutePatterns : List (Str → Bool))
    (paramValues : ParamValues) (lang : Option LangConfig) (dc dp : Option Str) :
    Except Str (List PathObj) :=
  let routesContainLangParam := allRoutes.any (fun r => (langFind r).isSome)
  if routesContainLangParam
      && (match lang with | none => true | some l => l.dflt.isEmpty || l.alternates.isEmpty) then
    .error ("Must specify `lang` property within the sitemap config because one or more routes contain [[lang]].".toList)
  else
    let filteredRoutes := filterRoutes allRoutes excludeRoutePatterns
    let processedRoutes := processRoutesForOptionalParams filteredRoutes
    match generatePathsWithParamValues processedRoutes paramValues dc dp with
    | .error e => .error e
    | .ok (pathsWithLang, pathsWithoutLang) =>
      match lang with
      | some l => .ok (pathsWithoutLang ++ processPathsWithLang pathsWithLang l)
      | none =>
        if pathsWithLang.isEmpty then .ok (pathsWithoutLang ++ [])
        else .error ("TypeError: Cannot read properties of undefined".toList)

example :
    processOptionalParams ("/foo/[[a]]/[[b]]".toList)
      = [("/foo".toList), ("/foo/[[a]]".toList), ("/foo/[[a]]/[[b]]".toList)] := by decide

example :
    processOptionalParams ("/[[lang]]/x/[[p]]".toList)
      = [("/[[lang]]/x".toList), ("/[[lang]]/x/[[p]]".toList)] := by decide

example :
    filterRoutes [("/src/routes/(public)/about/+page.svelte".toList),
        ("/src/routes/+page.svelte".toList), ("/src/routes/blog/[slug]/+page.md".toList)] []
      = [("/".toList), ("/about".toList), ("/blog/[slug]".toList)] := by decide

/-- One `<url>` element of `generateBody`.  String-valued fields follow JS
truthiness (empty string is falsy).  `priority` is carried as a string; the
JS falsiness of the number `0` is not modelled (no claim touches it). -/
def urlElement (origin : Str) (p : PathObj) : Str :=
  ("\n  <url>\n".toList)
    ++ ("    <loc>".toList) ++ origin ++ p.path ++ ("</loc>\n".toList)
    ++ (match p.lastmod with
        | some l => if l.isEmpty then [] else ("    <lastmod>".toList) ++ l ++ ("</lastmod>\n".toList)
        | none => [])
    ++ (match p.changefreq with
        | some c => if c.isEmpty then [] else ("    <changefreq>".toList) ++ c ++ ("</changefreq>\n".toList)
        | none => [])
    ++ (match p.priority with
        | some pr => if pr.isEmpty then [] else ("    <priority>".toList) ++ pr ++ ("</priority>\n".toList)
        | none => [])
    ++ (match p.alternates with
        | some alts => alts.flatMap (fun a =>
            ("    <xhtml:link rel=\"alternate\" hreflang=\"".toList) ++ a.lang
              ++ ("\" href=\"".toList) ++ origin ++ a.path ++ ("\" />\n".toList))
        | none => [])
    ++ ("  </url>".toList)

/-- `generateBody(origin, pathObjs)`. -/
def generateBody (origin : Str) (pathObjs : List PathObj) : Str :=
  ("<?xml version=\"1.0\" encoding=\"UTF-8\" ?>\n<urlset\n  xmlns=\"http://www.sitemaps.org/schemas/sitemap/0.9\"\n  xmlns:xhtml=\"http://www.w3.org/1999/xhtml\"\n>".toList)
    ++ pathObjs.flatMap (urlElement origin)
    ++ ("\n</urlset>".toList)

/-- `generateSitemapIndex(origin, pages)`. -/
def generateSitemapIndex (origin : Str) (pages : Nat) : Str :=
  ("<?xml version=\"1.0\" encoding=\"UTF-8\"?>\n<sitemapindex xmlns=\"http://www.sitemaps.org/schemas/sitemap/0.9\">".toList)
    ++ ((List.range pages).flatMap (fun i =>
        ("\n  <sitemap>\n    <loc>".toList) ++ origin ++ ("/sitemap".toList)
          ++ (Nat.repr (i + 1)).toList ++ (".xml</loc>\n  </sitemap>".toList)))
    ++ ("\n</sitemapindex>".toList)

/-- Set a key of a JS object literal: existing keys keep their position,
new keys are appended. -/
def setKey (m : List (Str × Str)) (k v : Str) : List (Str × Str) :=
  if m.any (fun e => e.1 = k) then m.map (fun e => if e.1 = k then (k, v) else e)
  else m ++ [(k, v)]

/-- The header merge of `response`: defaults, then the custom headers with
lower-cased keys (custom overrides on case-insensitive match). -/
def mergeHeaders (custom : List (Str × Str)) : List (Str × Str) :=
  custom.foldl (fun m kv => setKey m (kv.1.map Char.toLower) kv.2)
    [ (("cache-control".toList), ("max-age=0, s-maxage=3600".toList)),
      (("content-type".toList), ("application/xml".toList)) ]

/-- `SitemapConfig`.  `excludeRoutePatterns` are opaque regex predicates;
`sort : 'alpha' | false` is a Bool; `page` is the URL param string (`!page`
is JS-falsy for both absence and the empty string, handled in `response`). -/
structure SitemapConfig where
  additionalPaths : List Str := []
  defaultChangefreq : Option Str := none
  defaultPriority : Option Str := none
  excludeRoutePatterns : List (Str → Bool) := []
  headers : List (Str × Str) := []
  lang : Option LangConfig := none
  maxPerPage : Nat := 50000
  origin : Str
  page : Option Str := none
  paramValues : ParamValues := []
  processPaths : Option (List PathObj → List PathObj) := none
  sort : Bool := false

/-- The value of a JS `Response`: status, body, headers. -/
structure SitemapResponse where
  status : Nat
  body : Str
  headers : List (Str × Str)
deriving Repr

/-- Insertion into a sorted `PathObj` list (see `sortPathsBy`). -/
def insertSortedBy (le : PathObj → PathObj → Bool) (x : PathObj) : List PathObj → List PathObj
  | [] => [x]
  | y :: rest => if le x y then x :: y :: rest else y :: insertSortedBy le x rest

/-- `Array.prototype.sort` with the comparator
`(a, b) => a.path.localeCompare(b.path)`.  `localeCompare` is a
locale-dependent host function, passed in as the opaque comparator `lc`;
after dedup the paths are distinct, so for a consistent total comparator the
sorted permutation is unique and insertion sort agrees with the host sort. -/
def sortPathsBy (lc : Str → Str → Int) (paths : List PathObj) : List PathObj :=
  paths.foldr (insertSortedBy (fun a b => decide (lc a.path b.path ≤ 0))) []

/-- `Math.ceil(n / m)` for the integer sizes at hand. -/
def ceilDiv (n m : Nat) : Nat := (n + m - 1) / m

/-- The path-assembly pipeline of `response`, up to (and including) dedup and
sort: `generatePaths ++ generateAdditionalPaths`, `processPaths` hook,
`deduplicatePaths`, optional alpha sort.  `response` is `origin` check, this
pipeline, then pagination/serialization. -/
def assembledPaths (allRoutes : List Str) (lc : Str → Str → Int) (cfg : SitemapConfig) :
    Except Str (List PathObj) :=
  match generatePaths allRoutes cfg.excludeRoutePatterns cfg.paramValues cfg.lang
      cfg.defaultChangefreq cfg.defaultPriority with
  | .error e => .error e
  | .ok generated =>
    let paths1 := generated ++ generateAdditionalPaths cfg.additionalPaths
        cfg.defaultChangefreq cfg.defaultPriority
    let paths2 := match cfg.processPaths with
      | some f => f paths1
      | none => paths1
    let paths3 := deduplicatePaths paths2
    .ok (if cfg.sort then sortPathsBy lc paths3 else paths3)

/-- `Array.prototype.slice(start, stop)` with non-negative in-range indices
(`paths.slice((pageInt - 1) * maxPerPage, pageInt * maxPerPage)`). -/
def slicePage (l : List PathObj) (start stop : Nat) : List PathObj :=
  (l.take stop).drop start

/-- `response(config)`.  `allRoutes` stands for the `import.meta.glob`
enumeration and `lc` for the host `localeCompare`.  Thrown errors are
`.error`; returned `Response` objects are `.ok`. -/
def response (allRoutes : List Str) (lc : Str → Str → Int) (cfg : SitemapConfig) :
    Except Str SitemapResponse :=
  if cfg.origin.isEmpty then
    .error ("Sitemap: `origin` property is required in sitemap config.".toList)
  else
    match assembledPaths allRoutes lc cfg with
    | .error e => .error e
    | .ok paths =>
      let totalPages := ceilDiv paths.length cfg.maxPerPage
      match (match cfg.page with | none => none | some s => if s.isEmpty then none else some s) with
      | none =>
        let body := if paths.length ≤ cfg.maxPerPage then generateBody cfg.origin paths
          else generateSitemapIndex cfg.origin totalPages
        .ok { status := 200, body := body, headers := mergeHeaders cfg.headers }
      | some page =>
        if !pageCanonical page then
          .ok { status := 400, body := ("Invalid page param".toList), headers := [] }
        else
          let pageInt := digitsToNat page
          if totalPages < pageInt then
            .ok { status := 404, body := ("Page does not exist".toList), headers := [] }
          else
            let pathsOnThisPage := slicePage paths ((pageInt - 1) * cfg.maxPerPage) (pageInt * cfg.maxPerPage)
            .ok { status := 200, body := generateBody cfg.origin pathsOnThisPage,
                  headers := mergeHeaders cfg.headers }

/-- Join segments with leading slashes: `joinSegs [a, b] = "/a/b"`. -/
def joinSegs (segs : List Str) : Str := segs.flatMap (fun s => '/' :: s)

/-- An optional-parameter token `[[name]]`. -/
def mkOpt (name : Str) : Str := ('[' :: '[' :: name) ++ ("]]".toList)

/-- Successive one-segment extensions of `base` (the shape of the
optional-parameter expansion): `chain b [s, t] = [b/s, b/s/t]`. -/
def chain (base : Str) : List Str → List Str
  | [] => []
  | seg :: rest => (base ++ '/' :: seg) :: chain (base ++ '/' :: seg) rest

/-- A route segment for stating binder claims: a fixed segment, a required
token `[name]`, or an optional token `[[name]]`. -/
inductive Seg where
  | fixd (s : Str)
  | tok1 (name : Str)
  | tok2 (name : Str)
deriving DecidableEq, Repr

/-- The string of a `Seg`. -/
def segStr : Seg → Str
  | .fixd s => s
  | .tok1 name => ('[' :: name) ++ ("]".toList)
  | .tok2 name => mkOpt name

/-- Left-to-right positional substitution over segments: the `i`-th token
(counting from `i0`) receives `vals[i]`, out-of-range tokens receive `''`. -/
def substSegs (segs : List Seg) (vals : List Str) (i0 : Nat) : List Str :=
  match segs with
  | [] => []
  | .fixd s :: rest => s :: substSegs rest vals i0
  | .tok1 _ :: rest => vals.getD i0 [] :: substSegs rest vals (i0 + 1)
  | .tok2 _ :: rest => vals.getD i0 [] :: substSegs rest vals (i0 + 1)

/-- Well-formedness of a `Seg` for the binder claims: fixed segments contain
no brackets and no slash; token names are nonempty and contain no brackets
and no slash. -/
def segOk : Seg → Prop
  | .fixd s => '[' ∉ s ∧ ']' ∉ s ∧ '/' ∉ s
  | .tok1 name => name ≠ [] ∧ '[' ∉ name ∧ ']' ∉ name ∧ '/' ∉ name
  | .tok2 name => name ≠ [] ∧ '[' ∉ name ∧ ']' ∉ name ∧ '/' ∉ name

instance (g : Seg) : Decidable (segOk g) := by
  cases g <;> (unfold segOk; infer_instance)

/-- The last record of `l` whose `path` is `k` (the "last write" for key
`k`). -/
def lastWith (l : List PathObj) (k : Str) : Option PathObj :=
  (l.filter (fun p => p.path = k)).getLast?

example :
    assembledPaths
      [("/src/routes/+page.svelte".toList), ("/src/routes/about/+page.svelte".toList),
       ("/src/routes/blog/[slug]/+page.svelte".toList)]
      (fun _ _ => 0)
      { origin := ("https://example.com".toList), maxPerPage := 2,
        paramValues := [(("/blog/[slug]".toList), PVal.arr1 [("a".toList), ("b".toList)])] }
    = .ok [{ path := ("/".toList) }, { path := ("/about".toList) },
           { path := ("/blog/a".toList) }, { path := ("/blog/b".toList) }] := rfl

example :
    (response
      [("/src/routes/+page.svelte".toList), ("/src/routes/about/+page.svelte".toList),
       ("/src/routes/blog/[slug]/+page.svelte".toList)]
      (fun _ _ => 0)
      { origin := ("https://example.com".toList), maxPerPage := 2, page := some ("2".toList),
        paramValues := [(("/blog/[slug]".toList), PVal.arr1 [("a".toList), ("b".toList)])] })
    = .ok { status := 200,
            body := generateBody ("https://example.com".toList)
              [{ path := ("/blog/a".toList) }, { path := ("/blog/b".toList) }],
            headers := mergeHeaders [] } := rfl

example :
    (response [("/src/routes/+page.svelte".toList)] (fun _ _ => 0)
        { origin := ("https://example.com".toList), page := some ("0".toList) }).map (·.status)
    = .ok 400 := rfl

example :
    (response [("/src/routes/+page.svelte".toList)] (fun _ _ => 0)
        { origin := ("https://example.com".toList), page := some ("99".toList) }).map (·.status)
    = .ok 404 := rfl

example :
    (response [("/src/routes/blog/[slug]/+page.svelte".toList)] (fun _ _ => 0)
        { origin := ("https://example.com".toList) })
    = .error ("Sitemap: paramValues not provided for a parameterized route".toList) := rfl

theorem lastWith_nil (k : Str) : lastWith [] k = none := rfl

theorem lastWith_cons (p : PathObj) (l : List PathObj) (k : Str) :
    lastWith (p :: l) k
      = if p.path = k then some ((lastWith l k).getD p) else lastWith l k := by
  by_cases h : p.path = k
  · simp [lastWith, List.filter_cons, h, List.getLast?_cons]
  · simp [lastWith, List.filter_cons, h]

theorem lastWith_mem {l : List PathObj} {k : Str} {r : PathObj}
    (h : lastWith l k = some r) : r ∈ l ∧ r.path = k := by
  unfold lastWith at h
  have hm : r ∈ l.filter (fun p => p.path = k) := List.mem_of_mem_getLast? h
  have := List.mem_filter.mp hm
  exact ⟨this.1, by simpa using this.2⟩

theorem lastWith_isSome {l : List PathObj} {k : Str}
    (h : k ∈ l.map (·.path)) : (lastWith l k).isSome := by
  unfold lastWith
  rw [List.getLast?_isSome]
  obtain ⟨r, hr, hrk⟩ := List.mem_map.mp h
  intro hnil
  have : r ∈ l.filter (fun p => p.path = k) := List.mem_filter.mpr ⟨hr, by simp [hrk]⟩
  rw [hnil] at this
  exact absurd this (List.not_mem_nil r)

theorem mem_dedupFirstAux (x : Str) (l : List Str) :
    ∀ (seen : List Str), x ∈ dedupFirstAux seen l ↔ x ∈ l ∧ x ∉ seen := by
  induction l with
  | nil => intro seen; simp [dedupFirstAux]
  | cons a rest ih =>
    intro seen
    by_cases ha : a ∈ seen
    · simp only [dedupFirstAux, if_pos ha, ih]
      constructor
      · rintro ⟨hx, hns⟩; exact ⟨List.mem_cons_of_mem a hx, hns⟩
      · rintro ⟨hx, hns⟩
        rcases List.mem_cons.mp hx with rfl | hx
        · exact absurd ha hns
        · exact ⟨hx, hns⟩
    · simp only [dedupFirstAux, if_neg ha, List.mem_cons, ih]
      by_cases hxa : x = a
      · subst hxa; tauto
      · tauto

theorem dedupFirstAux_nodup (l : List Str) :
    ∀ (seen : List Str), (dedupFirstAux seen l).Nodup := by
  induction l with
  | nil => intro seen; simp [dedupFirstAux]
  | cons a rest ih =>
    intro seen
    by_cases ha : a ∈ seen
    · simpa [dedupFirstAux, if_pos ha] using ih seen
    · rw [dedupFirstAux, if_neg ha]
      refine List.Nodup.cons ?_ (ih (a :: seen))
      intro hmem
      exact ((mem_dedupFirstAux a rest (a :: seen)).mp hmem).2 (List.mem_cons_self a seen)

theorem dedupFirstAux_congr (l : List Str) :
    ∀ (seen1 seen2 : List Str), (∀ x, x ∈ seen1 ↔ x ∈ seen2) →
      dedupFirstAux seen1 l = dedupFirstAux seen2 l := by
  induction l with
  | nil => intro _ _ _; rfl
  | cons a rest ih =>
    intro seen1 seen2 h
    by_cases ha : a ∈ seen1
    · rw [dedupFirstAux, dedupFirstAux, if_pos ha, if_pos ((h a).mp ha), ih seen1 seen2 h]
    · rw [dedupFirstAux, dedupFirstAux, if_neg ha, if_neg (fun h2 => ha ((h a).mpr h2))]
      rw [ih (a :: seen1) (a :: seen2) (by intro x; simp [h x])]

theorem mem_dedupFirst (x : Str) (l : List Str) : x ∈ dedupFirst l ↔ x ∈ l := by
  unfold dedupFirst
  rw [mem_dedupFirstAux]
  simp

theorem dedupFirst_nodup (l : List Str) : (dedupFirst l).Nodup := dedupFirstAux_nodup l []

theorem mapSet_of_mem {m : List (Str × PathObj)} {k : Str} (v : PathObj)
    (h : k ∈ m.map (·.1)) :
    mapSet m k v = m.map (fun e => if e.1 = k then (k, v) else e) := by
  unfold mapSet
  rw [if_pos]
  rw [List.any_eq_true]
  obtain ⟨e, he, hek⟩ := List.mem_map.mp h
  exact ⟨e, he, by simp [hek]⟩

theorem mapSet_of_not_mem {m : List (Str × PathObj)} {k : Str} (v : PathObj)
    (h : k ∉ m.map (·.1)) :
    mapSet m k v = m ++ [(k, v)] := by
  unfold mapSet
  rw [if_neg]
  intro hany
  obtain ⟨e, he, hek⟩ := List.any_eq_true.mp hany
  exact h (List.mem_map.mpr ⟨e, he, by simpa using hek⟩)

theorem foldl_mapSet_eq (l : List PathObj) :
    ∀ (m : List (Str × PathObj)), (m.map (·.1)).Nodup → (∀ kv ∈ m, kv.2.path = kv.1) →
    (List.foldl (fun m p => mapSet m p.path p) m l).map (·.2)
      = m.map (fun kv => (lastWith l kv.1).getD kv.2)
        ++ (dedupFirstAux (m.map (·.1)) (l.map (·.path))).filterMap (lastWith l) := by
  induction l with
  | nil =>
    intro m _ _
    simp [dedupFirstAux, lastWith_nil]
  | cons p l ih =>
    intro m hnd hcons
    by_cases hmem : p.path ∈ m.map (·.1)
    · -- update in place: keys unchanged
      rw [List.foldl_cons, mapSet_of_mem p hmem]
      have hkeys : (m.map (fun e => if e.1 = p.path then (p.path, p) else e)).map (·.1)
          = m.map (·.1) := by
        rw [List.map_map]
        refine List.map_congr_left ?_
        intro e _
        by_cases he : e.1 = p.path
        · simp [he]
        · simp [he]
      rw [ih _ (by rw [hkeys]; exact hnd) ?hc]
      case hc =>
        intro kv hkv
        obtain ⟨e, _, hee⟩ := List.mem_map.mp hkv
        by_cases he : e.1 = p.path
        · rw [if_pos he] at hee; rw [← hee]
        · rw [if_neg he] at hee; rw [← hee]; exact hcons e (by assumption)
      rw [hkeys]
      congr 1
      · -- first summand
        rw [List.map_map]
        refine List.map_congr_left ?_
        intro e he
        by_cases hek : e.1 = p.path
        · simp only [Function.comp, if_pos hek, lastWith_cons, hek, if_pos rfl]
          cases hlw : lastWith l p.path <;> simp [hlw]
        · simp only [Function.comp, if_neg hek, lastWith_cons]
          rw [if_neg (fun h => hek h.symm)]
      · -- second summand
        have hdrop : dedupFirstAux (m.map (·.1)) ((p :: l).map (·.path))
            = dedupFirstAux (m.map (·.1)) (l.map (·.path)) := by
          simp only [List.map_cons, dedupFirstAux, if_pos hmem]
        rw [hdrop]
        refine List.filterMap_congr ?_
        intro k hk
        have hns := ((mem_dedupFirstAux k _ _).mp hk).2
        have hkp : p.path ≠ k := fun h => hns (h ▸ hmem)
        rw [lastWith_cons, if_neg hkp]
    · -- append: new key
      rw [List.foldl_cons, mapSet_of_not_mem p hmem]
      have hnd2 : ((m ++ [(p.path, p)]).map (·.1)).Nodup := by
        rw [List.map_append]
        simp only [List.map_cons, List.map_nil]
        rw [List.nodup_append]
        refine ⟨hnd, List.nodup_singleton p.path, ?_⟩
        intro a ha hb
        rw [List.mem_singleton] at hb
        exact hmem (hb ▸ ha)
      rw [ih _ hnd2 ?hc2]
      case hc2 =>
        intro kv hkv
        rcases List.mem_append.mp hkv with h | h
        · exact hcons kv h
        · simp at h; rw [h]
      rw [List.map_append, List.map_append]
      simp only [List.map_cons, List.map_nil]
      have hseen : dedupFirstAux ((m.map (·.1)) ++ [p.path]) (l.map (·.path))
          = dedupFirstAux (p.path :: m.map (·.1)) (l.map (·.path)) := by
        refine dedupFirstAux_congr _ _ _ ?_
        intro x
        constructor
        · intro hx
          rcases List.mem_append.mp hx with h | h
          · exact List.mem_cons_of_mem _ h
          · rw [List.mem_singleton] at h
            exact h ▸ List.mem_cons_self _ _
        · intro hx
          rcases List.mem_cons.mp hx with h | h
          · exact List.mem_append.mpr (Or.inr (by rw [h]; exact List.mem_singleton_self _))
          · exact List.mem_append.mpr (Or.inl h)
      have hnew : dedupFirstAux (m.map (·.1)) (p.path :: l.map (·.path))
          = p.path :: dedupFirstAux (p.path :: m.map (·.1)) (l.map (·.path)) := by
        rw [dedupFirstAux, if_neg hmem]
      rw [hseen, hnew]
      have hlast : lastWith (p :: l) p.path = some ((lastWith l p.path).getD p) := by
        rw [lastWith_cons, if_pos rfl]
      rw [List.filterMap_cons]
      rw [hlast]
      have hrest : (dedupFirstAux (p.path :: m.map (·.1)) (l.map (·.path))).filterMap (lastWith (p :: l))
          = (dedupFirstAux (p.path :: m.map (·.1)) (l.map (·.path))).filterMap (lastWith l) := by
        refine List.filterMap_congr ?_
        intro k hk
        have hns := ((mem_dedupFirstAux k _ _).mp hk).2
        have hkp : p.path ≠ k := fun h => hns (h ▸ List.mem_cons_self _ _)
        rw [lastWith_cons, if_neg hkp]
      rw [hrest]
      have hfirst : m.map (fun kv => (lastWith (p :: l) kv.1).getD kv.2)
          = m.map (fun kv => (lastWith l kv.1).getD kv.2) := by
        refine List.map_congr_left ?_
        intro e he
        have hek : p.path ≠ e.1 := fun h => hmem (h ▸ List.mem_map.mpr ⟨e, he, rfl⟩)
        rw [lastWith_cons, if_neg hek]
      rw [hfirst]
      simp

theorem deduplicatePaths_eq (l : List PathObj) :
    deduplicatePaths l = (dedupFirst (l.map (·.path))).filterMap (lastWith l) := by
  have h := foldl_mapSet_eq l [] (by simp) (by simp)
  simpa [deduplicatePaths, dedupFirst] using h

theorem filterMap_lastWith_paths (l : List PathObj) :
    ∀ (keys : List Str), (∀ k ∈ keys, k ∈ l.map (·.path)) →
      ((keys.filterMap (lastWith l)).map (·.path)) = keys := by
  intro keys
  induction keys with
  | nil => intro _; rfl
  | cons k rest ih =>
    intro h
    have hk := h k (List.mem_cons_self _ _)
    obtain ⟨r, hr⟩ := Option.isSome_iff_exists.mp (lastWith_isSome hk)
    rw [List.filterMap_cons, hr]
    simp only [List.map_cons]
    rw [ih (fun x hx => h x (List.mem_cons_of_mem _ hx)), (lastWith_mem hr).2]

/-- C8: deduplication keeps exactly one record per distinct `path`, and for
each surviving record its metadata is that of the last-inserted record with
that path. -/
theorem c8_dedup_last_write_wins (l : List PathObj) :
    ((deduplicatePaths l).map (·.path)).Nodup
    ∧ (∀ k : Str, k ∈ (deduplicatePaths l).map (·.path) ↔ k ∈ l.map (·.path))
    ∧ (∀ r ∈ deduplicatePaths l, lastWith l r.path = some r) := by
  have hpaths : (deduplicatePaths l).map (·.path) = dedupFirst (l.map (·.path)) := by
    rw [deduplicatePaths_eq]
    exact filterMap_lastWith_paths l _ (fun k hk => (mem_dedupFirst k _).mp hk)
  refine ⟨by rw [hpaths]; exact dedupFirst_nodup _, ?_, ?_⟩
  · intro k; rw [hpaths, mem_dedupFirst]
  · intro r hr
    rw [deduplicatePaths_eq] at hr
    obtain ⟨k, _, hk2⟩ := List.mem_filterMap.mp hr
    have := (lastWith_mem hk2).2
    rw [← this] at hk2
    exact hk2

/-- C10: deduplication keeps the surviving record at the position of the
first occurrence of its path (JS `Map` insertion order), while its field
values come from the last occurrence. -/
theorem c10_dedup_keeps_first_position (l : List PathObj) :
    deduplicatePaths l = (dedupFirst (l.map (·.path))).filterMap (lastWith l) :=
  deduplicatePaths_eq l

theorem joinSegs_nil : joinSegs [] = [] := rfl

theorem joinSegs_cons (s : Str) (l : List Str) : joinSegs (s :: l) = '/' :: (s ++ joinSegs l) := by
  simp [joinSegs]

theorem joinSegs_append (l1 l2 : List Str) : joinSegs (l1 ++ l2) = joinSegs l1 ++ joinSegs l2 := by
  simp [joinSegs]

theorem bb_toList : ("[[".toList) = ['[', '['] := rfl

theorem indexOfStr_bb_over (s r : Str)
    (hs : containsStr ("[[".toList) s = false)
    (hr : r.headD ' ' ≠ '[') :
    indexOfStr ("[[".toList) (s ++ r) = (indexOfStr ("[[".toList) r).map (· + s.length) := by
  induction s with
  | nil =>
    simp only [List.nil_append, List.length_nil]
    cases indexOfStr ("[[".toList) r <;> simp
  | cons c s ih =>
    rw [containsStr] at hs
    have hs2 := (Bool.or_eq_false_iff.mp hs)
    have hpre : ("[[".toList).isPrefixOf ((c :: s) ++ r) = false := by
      rw [bb_toList]
      cases hceq : c == '[' with
      | false =>
        have hne : c ≠ '[' := by simpa using hceq
        simp [List.isPrefixOf, hne, Ne.symm hne]
      | true =>
        have hc : c = '[' := by simpa using hceq
        subst hc
        cases s with
        | nil =>
          simp only [List.nil_append, List.singleton_append, List.isPrefixOf, List.cons_append]
          cases r with
          | nil => simp [List.isPrefixOf]
          | cons r0 rt =>
            have hne : r0 ≠ '[' := by simpa using hr
            simp [List.isPrefixOf, hne, Ne.symm hne]
        | cons s0 st =>
          have hne : s0 ≠ '[' := by
            intro h
            subst h
            rw [bb_toList] at hs2
            simp [List.isPrefixOf] at hs2
          simp [List.isPrefixOf, hne, Ne.symm hne]
    rw [List.cons_append, indexOfStr]
    rw [List.cons_append] at hpre
    rw [hpre]
    simp only [Bool.false_eq_true, if_false]
    rw [ih hs2.2 ]
    cases indexOfStr ("[[".toList) r with
    | none => rfl
    | some v => simp; omega

theorem containsStr_bb_slashseg (s : Str) (h : containsStr ("[[".toList) s = false) :
    containsStr ("[[".toList) ('/' :: s) = false := by
  rw [containsStr, h]
  rw [bb_toList]
  simp [List.isPrefixOf]

theorem joinSegs_head_cases (pre : List Str) (r : Str) :
    (joinSegs pre ++ r).headD ' ' = '/' ∨ joinSegs pre ++ r = r := by
  cases pre with
  | nil => exact Or.inr (by simp [joinSegs])
  | cons s l => exact Or.inl (by rw [joinSegs_cons]; rfl)

theorem indexOfStr_bb_joinSegs (pre : List Str) (r : Str)
    (hpre : ∀ s ∈ pre, containsStr ("[[".toList) s = false)
    (hr : r.headD ' ' ≠ '[') :
    indexOfStr ("[[".toList) (joinSegs pre ++ r)
      = (indexOfStr ("[[".toList) r).map (· + (joinSegs pre).length) := by
  induction pre with
  | nil =>
    simp only [joinSegs_nil, List.nil_append, List.length_nil]
    cases indexOfStr ("[[".toList) r <;> simp
  | cons s l ih =>
    rw [joinSegs_cons, List.cons_append, List.append_assoc]
    have hstep : indexOfStr ("[[".toList) (('/' :: s) ++ (joinSegs l ++ r))
        = (indexOfStr ("[[".toList) (joinSegs l ++ r)).map (· + ('/' :: s).length) := by
      refine indexOfStr_bb_over ('/' :: s) (joinSegs l ++ r)
        (containsStr_bb_slashseg s (hpre s (List.mem_cons_self _ _))) ?_
      rcases joinSegs_head_cases l r with h | h
      · rw [h]; decide
      · rw [h]; exact hr
    rw [← List.cons_append, hstep, ih (fun u hu => hpre u (List.mem_cons_of_mem _ hu)) ]
    cases indexOfStr ("[[".toList) r with
    | none => simp
    | some v =>
      simp [joinSegs_cons]
      omega

theorem jsSlice_take (s : Str) (k : Nat) (hk : k ≤ s.length) :
    jsSlice s 0 (k : Int) = s.take k := by
  unfold jsSlice
  have h1 : ¬ ((0 : Int) < 0) := by omega
  have h2 : ¬ ((k : Int) < 0) := by omega
  simp only [if_neg h1, if_neg h2]
  have h3 : min (0 : Int) (s.length : Int) = 0 := by omega
  have h4 : min (k : Int) (s.length : Int) = (k : Int) := by omega
  rw [h3, h4]
  by_cases h5 : (0 : Int) < (k : Int)
  · rw [if_pos h5]
    simp [Int.toNat_ofNat]
  · rw [if_neg h5]
    have : k = 0 := by omega
    simp [this]

theorem jsSliceFrom_drop (s : Str) (k : Nat) (hk : k ≤ s.length) :
    jsSliceFrom s (k : Int) = s.drop k := by
  unfold jsSliceFrom jsSlice
  have h2 : ¬ ((k : Int) < 0) := by omega
  have h6 : ¬ ((s.length : Int) < 0) := by omega
  simp only [if_neg h2, if_neg h6]
  have h4 : min (k : Int) (s.length : Int) = (k : Int) := by omega
  have h5 : min (s.length : Int) (s.length : Int) = (s.length : Int) := by omega
  rw [h4, h5]
  by_cases h7 : (k : Int) < (s.length : Int)
  · rw [if_pos h7]
    simp
  · rw [if_neg h7]
    have : k = s.length := by omega
    rw [this]
    simp [List.drop_length]

theorem splitChar_no_sep (sep : Char) (s : Str) (h : sep ∉ s) : splitChar sep s = [s] := by
  induction s with
  | nil => rfl
  | cons c rest ih =>
    have hc : ¬ (c = sep) := fun he => h (he ▸ List.mem_cons_self _ _)
    rw [splitChar, if_neg hc, ih (fun hm => h (List.mem_cons_of_mem _ hm))]

theorem splitChar_append_sep (sep : Char) (x rest : Str) (hx : sep ∉ x) :
    splitChar sep (x ++ sep :: rest) = x :: splitChar sep rest := by
  induction x with
  | nil => simp [splitChar]
  | cons c xt ih =>
    have hc : ¬ (c = sep) := fun he => hx (he ▸ List.mem_cons_self _ _)
    rw [List.cons_append, splitChar, if_neg hc, ih (fun hm => hx (List.mem_cons_of_mem _ hm))]

theorem splitChar_tok_join (t : Str) (ts : List Str) (ht : '/' ∉ t)
    (hts : ∀ u ∈ ts, '/' ∉ u) :
    splitChar '/' (t ++ joinSegs ts) = t :: ts := by
  induction ts generalizing t with
  | nil => rw [joinSegs_nil, List.append_nil, splitChar_no_sep '/' t ht]
  | cons u ts ih =>
    rw [joinSegs_cons]
    rw [splitChar_append_sep '/' t (u ++ joinSegs ts) ht]
    rw [ih u (hts u (List.mem_cons_self _ _)) (fun v hv => hts v (List.mem_cons_of_mem _ hv))]

theorem getD_concat_length (l : List Str) (a : Str) (more : List Str) :
    (l ++ a :: more).getD l.length [] = a := by
  induction l with
  | nil => rfl
  | cons c t ih => simpa using ih

theorem getD_length_out (l : List Str) (j : Nat) (hj : l.length ≤ j) : l.getD j [] = [] := by
  rw [List.getD_eq_getElem?_getD, List.getElem?_eq_none hj]
  rfl

theorem set_concat_length (l : List Str) (a b : Str) (more : List Str) :
    (l ++ a :: more).set l.length b = l ++ b :: more := by
  induction l with
  | nil => rfl
  | cons c t ih => simpa using ih

theorem setOrPush_at_length (l : List Str) (v : Str) : setOrPush l l.length v = l ++ [v] := by
  unfold setOrPush
  rw [if_neg (by omega)]

theorem setOrPush_concat (l : List Str) (a b : Str) (more : List Str) :
    setOrPush (l ++ a :: more) l.length b = l ++ b :: more := by
  unfold setOrPush
  rw [if_pos (by simp), set_concat_length]

theorem seedResults_concat (init : List Str) (L : Str) :
    seedResults (init ++ [L]) (init.length + 1) = (init ++ [L]) ++ [L] := by
  unfold seedResults
  rw [getD_length_out (init ++ [L]) (init.length + 1) (by simp)]
  rw [if_pos (show (List.isEmpty ([] : Str)) = true from rfl)]
  have h2 : init.length + 1 - 1 = init.length := by omega
  rw [h2, getD_concat_length init L []]
  have h3 := setOrPush_at_length (init ++ [L]) L
  rw [List.length_append, List.length_singleton] at h3
  exact h3

theorem optLoop_all_tokens (toks : List Str)
    (htoks : ∀ t ∈ toks, ("[[".toList).isPrefixOf t = true) :
    ∀ (init : List Str) (L : Str),
      optLoop toks (init ++ [L]) (init.length + 1) = (init ++ [L]) ++ chain L toks := by
  induction toks with
  | nil => intro init L; simp [optLoop, chain]
  | cons t ts ih =>
    intro init L
    rw [optLoop]
    rw [seedResults_concat]
    have hlen : (init ++ [L]).length = init.length + 1 := by simp
    have hget_j : ((init ++ [L]) ++ [L]).getD (init.length + 1) [] = L := by
      have h := getD_concat_length (init ++ [L]) L []
      rwa [hlen] at h
    rw [hget_j]
    have hset : setOrPush ((init ++ [L]) ++ [L]) (init.length + 1) (L ++ '/' :: t)
        = (init ++ [L]) ++ (L ++ '/' :: t) :: [] := by
      have h := setOrPush_concat (init ++ [L]) L (L ++ '/' :: t) []
      rwa [hlen] at h
    rw [hset]
    rw [if_pos (htoks t (List.mem_cons_self _ _))]
    have hlen2 : init.length + 1 + 1 = (init ++ [L]).length + 1 := by simp
    rw [hlen2]
    have happ : (init ++ [L]) ++ (L ++ '/' :: t) :: [] = (init ++ [L]) ++ [L ++ '/' :: t] := rfl
    rw [happ]
    rw [ih (fun u hu => htoks u (List.mem_cons_of_mem _ hu)) (init ++ [L]) (L ++ '/' :: t)]
    rw [chain]
    simp

theorem bb_not_prefix_slash (r : Str) : ("[[".toList).isPrefixOf ('/' :: r) = false := by
  rw [bb_toList]
  simp [List.isPrefixOf]

theorem mkOpt_cons (n r : Str) : mkOpt n ++ r = '[' :: '[' :: (n ++ ("]]".toList) ++ r) := by
  simp [mkOpt]

theorem bb_prefix_mkOpt (n r : Str) : ("[[".toList).isPrefixOf (mkOpt n ++ r) = true := by
  rw [mkOpt_cons, bb_toList]
  simp [List.isPrefixOf]

theorem indexOfStr_bb_mkOpt (n r : Str) :
    indexOfStr ("[[".toList) (mkOpt n ++ r) = some 0 := by
  rw [mkOpt_cons, indexOfStr]
  rw [if_pos (by rw [bb_toList]; simp [List.isPrefixOf])]

theorem slash_not_mem_mkOpt (n : Str) (h : '/' ∉ n) : '/' ∉ mkOpt n := by
  intro hm
  rw [mkOpt] at hm
  rcases List.mem_append.mp hm with h1 | h1
  · rcases List.mem_cons.mp h1 with h2 | h2
    · exact absurd h2 (by decide)
    · rcases List.mem_cons.mp h2 with h3 | h3
      · exact absurd h3 (by decide)
      · exact h h3
  · exact absurd h1 (by decide)

theorem mkOpt_ne_nil (n : Str) : mkOpt n ≠ [] := by
  rw [mkOpt]
  intro h
  exact absurd (congrArg List.length h) (by simp)

theorem bb_prefix_mkOpt0 (n : Str) : ("[[".toList).isPrefixOf (mkOpt n) = true := by
  have h := bb_prefix_mkOpt n []
  rwa [List.append_nil] at h

theorem chain_eq (b : Str) (ts : List Str) :
    chain b ts = (List.range ts.length).map (fun i => b ++ joinSegs (ts.take (i + 1))) := by
  induction ts generalizing b with
  | nil => rfl
  | cons t ts ih =>
    rw [chain, ih (b ++ '/' :: t)]
    have hlen : (t :: ts).length = ts.length + 1 := rfl
    rw [hlen, List.range_succ_eq_map]
    rw [List.map_cons, List.map_map]
    congr 1
    · simp [joinSegs_cons, joinSegs_nil]
    · refine List.map_congr_left ?_
      intro i _
      simp only [Function.comp]
      rw [List.take_succ_cons, joinSegs_cons]
      simp

/-- C2: for a route made of clean fixed segments followed by `N ≥ 1` trailing
optional tokens (no language token present), `processOptionalParams` returns
exactly `N + 1` variants in increasing-length order: the shortest is the path
truncated to just before the first optional token (`/` when that leaves
nothing) and each subsequent variant appends exactly one more token segment;
in particular `/foo/[[a]]/[[b]]` expands to
`[/foo, /foo/[[a]], /foo/[[a]]/[[b]]]` (see the witness). -/
theorem c2_optional_param_expansion (pre names : List Str)
    (hpre : ∀ s ∈ pre, s ≠ [] ∧ containsStr ("[[".toList) s = false ∧ '/' ∉ s)
    (hnames : ∀ n ∈ names, '/' ∉ n)
    (hne : names ≠ [])
    (hlang : langFind (joinSegs (pre ++ names.map mkOpt)) = none) :
    processOptionalParams (joinSegs (pre ++ names.map mkOpt))
      = (if pre = [] then ("/".toList) else joinSegs pre)
          :: (List.range names.length).map (fun i =>
              joinSegs (pre ++ (names.take (i + 1)).map mkOpt))
    ∧ (processOptionalParams (joinSegs (pre ++ names.map mkOpt))).length
        = names.length + 1 := by
  obtain ⟨n0, ns, rfl⟩ : ∃ n0 ns, names = n0 :: ns := by
    cases names with
    | nil => exact absurd rfl hne
    | cons a b => exact ⟨a, b, rfl⟩
  have hJ2 : joinSegs ((n0 :: ns).map mkOpt) = '/' :: (mkOpt n0 ++ joinSegs (ns.map mkOpt)) := by
    rw [List.map_cons, joinSegs_cons]
  have hfind2 : indexOfStr ("[[".toList) (joinSegs ((n0 :: ns).map mkOpt)) = some 1 := by
    rw [hJ2, mkOpt_cons]
    simp [indexOfStr, bb_toList, List.isPrefixOf]
  have hlang2 : langFind (joinSegs pre ++ joinSegs ((n0 :: ns).map mkOpt)) = none := by
    rw [← joinSegs_append]
    exact hlang
  have hfind : indexOfStr ("[[".toList) (joinSegs pre ++ joinSegs ((n0 :: ns).map mkOpt))
      = some ((joinSegs pre).length + 1) := by
    rw [indexOfStr_bb_joinSegs pre _ (fun s hs => (hpre s hs).2.1) (by rw [hJ2]; simp)]
    rw [hfind2]
    simp [Nat.add_comm]
  have hidx : jsIndexOf ("[[".toList) (joinSegs pre ++ joinSegs ((n0 :: ns).map mkOpt))
      = (((joinSegs pre).length + 1 : Nat) : Int) := by
    unfold jsIndexOf
    rw [hfind]
  have hlenB : 1 ≤ (joinSegs ((n0 :: ns).map mkOpt)).length := by
    rw [hJ2]
    simp
  have hcast : ((((joinSegs pre).length + 1 : Nat) : Int)) - 1 = (((joinSegs pre).length : Nat) : Int) := by
    push_cast
    ring
  have hslice : jsSlice (joinSegs pre ++ joinSegs ((n0 :: ns).map mkOpt)) 0
      ((((joinSegs pre).length : Nat) : Int)) = joinSegs pre := by
    rw [jsSlice_take _ _ (by simp)]
    exact List.take_left _ _
  have hrem : jsSliceFrom (joinSegs pre ++ joinSegs ((n0 :: ns).map mkOpt))
      ((((joinSegs pre).length + 1 : Nat) : Int)) = mkOpt n0 ++ joinSegs (ns.map mkOpt) := by
    rw [jsSliceFrom_drop _ _ (by rw [List.length_append]; omega)]
    rw [hJ2]
    rw [show joinSegs pre ++ '/' :: (mkOpt n0 ++ joinSegs (ns.map mkOpt))
        = (joinSegs pre ++ ['/']) ++ (mkOpt n0 ++ joinSegs (ns.map mkOpt)) by simp]
    rw [show (joinSegs pre).length + 1 = (joinSegs pre ++ ['/']).length by simp]
    exact List.drop_left _ _
  have hsegs : (splitChar '/' (mkOpt n0 ++ joinSegs (ns.map mkOpt))).filter
      (fun x => !x.isEmpty) = (n0 :: ns).map mkOpt := by
    rw [splitChar_tok_join (mkOpt n0) (ns.map mkOpt)
      (slash_not_mem_mkOpt n0 (hnames n0 (List.mem_cons_self _ _)))
      (by
        intro u hu
        obtain ⟨n, hn, rfl⟩ := List.mem_map.mp hu
        exact slash_not_mem_mkOpt n (hnames n (List.mem_cons_of_mem _ hn)))]
    rw [← List.map_cons]
    refine List.filter_eq_self.mpr ?_
    intro a ha
    obtain ⟨n, _, rfl⟩ := List.mem_map.mp ha
    simp [List.isEmpty_iff, mkOpt_ne_nil n]
  have htoks : ∀ t ∈ (n0 :: ns).map mkOpt, ("[[".toList).isPrefixOf t = true := by
    intro t ht
    obtain ⟨n, _, rfl⟩ := List.mem_map.mp ht
    exact bb_prefix_mkOpt0 n
  have hloop : optLoop ((n0 :: ns).map mkOpt) [joinSegs pre] 1
      = joinSegs pre :: chain (joinSegs pre) ((n0 :: ns).map mkOpt) := by
    have h := optLoop_all_tokens ((n0 :: ns).map mkOpt) htoks [] (joinSegs pre)
    simpa using h
  have htail : chain (joinSegs pre) ((n0 :: ns).map mkOpt)
      = (List.range (n0 :: ns).length).map (fun i =>
          joinSegs (pre ++ ((n0 :: ns).take (i + 1)).map mkOpt)) := by
    rw [chain_eq, List.length_map]
    refine List.map_congr_left ?_
    intro i _
    rw [joinSegs_append, List.map_take]
  have hmain : processOptionalParams (joinSegs (pre ++ (n0 :: ns).map mkOpt))
      = (if pre = [] then ("/".toList) else joinSegs pre)
          :: (List.range (n0 :: ns).length).map (fun i =>
              joinSegs (pre ++ ((n0 :: ns).take (i + 1)).map mkOpt)) := by
    rw [joinSegs_append]
    unfold processOptionalParams
    rw [hlang2]
    simp only [hidx, hcast, hslice, hrem, hsegs, hloop, htail]
    by_cases hp : pre = []
    · subst hp
      simp [joinSegs_nil]
    · have : joinSegs pre ≠ [] := by
        cases pre with
        | nil => exact absurd rfl hp
        | cons s l => rw [joinSegs_cons]; exact List.cons_ne_nil _ _
      simp [hp, List.isEmpty_iff, this]
  refine ⟨hmain, ?_⟩
  rw [hmain]
  simp

/-- Witness for C2 at the spec example `/foo/[[a]]/[[b]]`. -/
theorem c2_optional_param_expansion_witness :
    processOptionalParams (joinSegs ([("foo".toList)] ++ ([("a".toList), ("b".toList)]).map mkOpt))
      = [("/foo".toList), ("/foo/[[a]]".toList), ("/foo/[[a]]/[[b]]".toList)]
    ∧ (processOptionalParams (joinSegs ([("foo".toList)]
          ++ ([("a".toList), ("b".toList)]).map mkOpt))).length = 3 := by
  have h := c2_optional_param_expansion ([("foo".toList)]) ([("a".toList), ("b".toList)])
    (by decide) (by decide) (by decide) (by decide)
  refine ⟨?_, ?_⟩
  · rw [h.1]
    decide
  · rw [h.2]
    decide

theorem processPathsWithLang_eq_flatMap (pathObjs : List PathObj) (cfgL : LangConfig) :
    processPathsWithLang pathObjs cfgL
      = pathObjs.flatMap (fun pathObj =>
          (variations cfgL pathObj.path).map (fun x =>
            { pathObj with alternates := some (variations cfgL pathObj.path), path := x.path })) := by
  unfold processPathsWithLang
  cases pathObjs with
  | nil => rfl
  | cons p l => rfl

theorem length_flatMap_const {α β : Type} (l : List α) (f : α → List β) (k : Nat)
    (h : ∀ a ∈ l, (f a).length = k) : (l.flatMap f).length = l.length * k := by
  induction l with
  | nil => simp
  | cons a t ih =>
    rw [List.flatMap_cons, List.length_append, h a (List.mem_cons_self _ _),
      ih (fun b hb => h b (List.mem_cons_of_mem _ hb)), List.length_cons, Nat.succ_mul]
    omega

theorem variations_length (cfgL : LangConfig) (path : Str) :
    (variations cfgL path).length = 1 + cfgL.alternates.length := by
  unfold variations
  simp [Nat.add_comm]

/-- C5: with a language configuration, each input path yields exactly one
record per configured language (default + alternates); the whole output is
the concatenation of these per-path groups; within a group every record
carries the identical `variations` list as its `alternates`, which enumerates
one `{lang, path}` entry per configured language. -/
theorem c5_language_expansion (cfgL : LangConfig) (pathObjs : List PathObj)
    (hp : ∀ p ∈ pathObjs, (langFind p.path).isSome) :
    (processPathsWithLang pathObjs cfgL).length
        = pathObjs.length * (1 + cfgL.alternates.length)
    ∧ processPathsWithLang pathObjs cfgL
        = pathObjs.flatMap (fun q => processPathsWithLang [q] cfgL)
    ∧ ∀ p ∈ pathObjs,
        (variations cfgL p.path).map (·.lang) = cfgL.dflt :: cfgL.alternates
        ∧ (∀ r ∈ processPathsWithLang [p] cfgL, r.alternates = some (variations cfgL p.path))
        ∧ (processPathsWithLang [p] cfgL).map (·.path) = (variations cfgL p.path).map (·.path)
        ∧ (processPathsWithLang [p] cfgL).length = 1 + cfgL.alternates.length := by
  have hgroup : ∀ p : PathObj, processPathsWithLang [p] cfgL
      = (variations cfgL p.path).map (fun x =>
          { p with alternates := some (variations cfgL p.path), path := x.path }) := by
    intro p
    rw [processPathsWithLang_eq_flatMap]
    simp
  refine ⟨?_, ?_, ?_⟩
  · rw [processPathsWithLang_eq_flatMap]
    refine length_flatMap_const _ _ _ ?_
    intro p _
    rw [List.length_map, variations_length]
  · rw [processPathsWithLang_eq_flatMap]
    refine List.flatMap_congr ?_ -- hmm placeholder
    intro p _
    rw [hgroup p]
  · intro p _
    refine ⟨?_, ?_, ?_, ?_⟩
    · unfold variations
      simp only [List.map_cons, List.map_map]
      rw [show ((fun (x : Alternate) => x.lang)
          ∘ fun l => ({ lang := l, path := langReplaceNoPath p.path l } : Alternate)) = id from rfl,
        List.map_id]
    · intro r hr
      rw [hgroup p] at hr
      obtain ⟨x, _, rfl⟩ := List.mem_map.mp hr
      rfl
    · rw [hgroup p, List.map_map]
      rfl
    · rw [hgroup p, List.length_map, variations_length]

/-- Witness for C5: `/[[lang]]/about` with `{default: en, alternates: [de]}`
expands to two records sharing one reciprocal alternates list. -/
theorem c5_language_expansion_witness :
    (∀ p ∈ ([{ path := ("/[[lang]]/about".toList) }] : List PathObj), (langFind p.path).isSome)
    ∧ (processPathsWithLang [{ path := ("/[[lang]]/about".toList) }]
        { dflt := ("en".toList), alternates := [("de".toList)] }).length = 1 * (1 + 1) := by
  refine ⟨by decide, ?_⟩
  exact (c5_language_expansion { dflt := ("en".toList), alternates := [("de".toList)] }
    [{ path := ("/[[lang]]/about".toList) }] (by decide)).1

theorem join_chunks (m : Nat) (hm : 1 ≤ m) :
    ∀ (n : Nat) (l : List PathObj), l.length = n →
      ((List.range (ceilDiv l.length m)).map (fun i => (l.drop (i * m)).take m)).flatten = l := by
  intro n
  induction n using Nat.strong_induction_on with
  | _ n ih =>
    intro l hl
    by_cases h0 : l.length = 0
    · have hnil : l = [] := List.length_eq_zero.mp h0
      subst hnil
      simp [ceilDiv]
    · by_cases hsmall : l.length ≤ m
      · have hceil : ceilDiv l.length m = 1 := by
          unfold ceilDiv
          have : l.length + m - 1 = (l.length - 1) + m := by omega
          rw [this, Nat.add_div_right _ (by omega)]
          have : (l.length - 1) / m = 0 := Nat.div_eq_of_lt (by omega)
          omega
        rw [hceil, show List.range 1 = [0] from rfl]
        simp [List.take_of_length_le hsmall]
      · have hceil : ceilDiv l.length m = ceilDiv (l.length - m) m + 1 := by
          unfold ceilDiv
          have e1 : l.length + m - 1 = (l.length - 1) + m := by omega
          have e2 : l.length - m + m - 1 = l.length - 1 := by omega
          rw [e1, e2, Nat.add_div_right _ (by omega)]
        rw [hceil, List.range_succ_eq_map, List.map_cons, List.flatten_cons]
        have hdrop0 : (l.drop (0 * m)).take m = l.take m := by simp
        rw [hdrop0, List.map_map]
        have hrest : (List.range (ceilDiv (l.length - m) m)).map
            ((fun i => (l.drop (i * m)).take m) ∘ (· + 1))
            = (List.range (ceilDiv (l.length - m) m)).map
              (fun i => ((l.drop m).drop (i * m)).take m) := by
          refine List.map_congr_left ?_
          intro i _
          simp only [Function.comp]
          rw [List.drop_drop]
          congr 2
          rw [Nat.succ_mul]
          omega
        rw [hrest]
        have hlen : (l.drop m).length = l.length - m := by simp
        have := ih (l.length - m) (by omega) (l.drop m) hlen
        rw [hlen] at this
        rw [this]
        exact List.take_append_drop m l

/-- C3: `totalPages = ceil(count / maxPerPage)`; for every valid requested
page `p` the body serializes exactly the slice
`[(p-1)*maxPerPage, p*maxPerPage)` of the assembled path list, and
concatenating the slices for pages `1..totalPages` reproduces the whole list
with no gaps or overlaps. -/
theorem c3_pagination (allRoutes : List Str) (lc : Str → Str → Int) (cfg : SitemapConfig)
    (paths : List PathObj) (hm : 1 ≤ cfg.maxPerPage)
    (horigin : cfg.origin ≠ [])
    (hok : assembledPaths allRoutes lc cfg = .ok paths) :
    ((List.range (ceilDiv paths.length cfg.maxPerPage)).map
        (fun i => (paths.drop (i * cfg.maxPerPage)).take cfg.maxPerPage)).flatten = paths
    ∧ ∀ (s : Str) (p : Nat), pageCanonical s = true → digitsToNat s = p →
        1 ≤ p → p ≤ ceilDiv paths.length cfg.maxPerPage →
        response allRoutes lc { cfg with page := some s }
          = .ok { status := 200,
                  body := generateBody cfg.origin
                    ((paths.drop ((p - 1) * cfg.maxPerPage)).take cfg.maxPerPage),
                  headers := mergeHeaders cfg.headers } := by
  constructor
  · exact join_chunks cfg.maxPerPage hm paths.length paths rfl
  · intro s p hcanon hval h1 h2
    have hsne : s ≠ [] := by
      cases s with
      | nil => simp [pageCanonical] at hcanon
      | cons a t => exact List.cons_ne_nil _ _
    have hoe : cfg.origin.isEmpty = false := by
      rw [List.isEmpty_eq_false]
      exact horigin
    have hse : s.isEmpty = false := by
      rw [List.isEmpty_eq_false]
      exact hsne
    have hassembled : assembledPaths allRoutes lc { cfg with page := some s }
        = Except.ok paths := hok
    unfold response
    rw [show ({ cfg with page := some s } : SitemapConfig).origin = cfg.origin from rfl]
    rw [hoe]
    simp only [Bool.false_eq_true, if_false]
    rw [hassembled]
    simp only [hse, Bool.false_eq_true, if_false, hcanon, Bool.not_true, hval]
    rw [if_neg (show ¬ (ceilDiv paths.length cfg.maxPerPage < p) by omega)]
    have hslice : slicePage paths ((p - 1) * cfg.maxPerPage) (p * cfg.maxPerPage)
        = (paths.drop ((p - 1) * cfg.maxPerPage)).take cfg.maxPerPage := by
      unfold slicePage
      rw [List.drop_take]
      congr 1
      obtain ⟨q, rfl⟩ : ∃ q, p = q + 1 := ⟨p - 1, by omega⟩
      rw [Nat.succ_mul, show q + 1 - 1 = q from rfl]
      omega
    rw [hslice]

/-- Witness for C3 at the spec example: routes `/`, `/about`, `/blog/[slug]`
with slugs `a`, `b` and `maxPerPage = 2`; page 2 is `[/blog/a, /blog/b]`. -/
theorem c3_pagination_witness :
    response
      [("/src/routes/+page.svelte".toList), ("/src/routes/about/+page.svelte".toList),
       ("/src/routes/blog/[slug]/+page.svelte".toList)]
      (fun _ _ => 0)
      { origin := ("https://example.com".toList), maxPerPage := 2, page := some ("2".toList),
        paramValues := [(("/blog/[slug]".toList), PVal.arr1 [("a".toList), ("b".toList)])] }
    = .ok { status := 200,
            body := generateBody ("https://example.com".toList)
              [{ path := ("/blog/a".toList) }, { path := ("/blog/b".toList) }],
            headers := mergeHeaders [] } := by
  have h := (c3_pagination
    [("/src/routes/+page.svelte".toList), ("/src/routes/about/+page.svelte".toList),
     ("/src/routes/blog/[slug]/+page.svelte".toList)]
    (fun _ _ => 0)
    { origin := ("https://example.com".toList), maxPerPage := 2,
      paramValues := [(("/blog/[slug]".toList), PVal.arr1 [("a".toList), ("b".toList)])] }
    [{ path := ("/".toList) }, { path := ("/about".toList) },
     { path := ("/blog/a".toList) }, { path := ("/blog/b".toList) }]
    (by decide) (by decide) rfl).2
    ("2".toList) 2 rfl rfl (by decide) (by decide)
  exact h

/-- C4: for any `maxPerPage ≥ 1` (the domain on which `ceilDiv` models JS
`Math.ceil` division), a requested page string that is not a canonical
base-10 positive integer yields a 400 response; a canonical one exceeding
`totalPages` yields a 404 response; neither case throws. -/
theorem c4_page_param (allRoutes : List Str) (lc : Str → Str → Int) (cfg : SitemapConfig)
    (paths : List PathObj) (s : Str)
    (hm : 1 ≤ cfg.maxPerPage)
    (horigin : cfg.origin ≠ [])
    (hok : assembledPaths allRoutes lc cfg = .ok paths)
    (hsne : s ≠ []) :
    (pageCanonical s = false →
      response allRoutes lc { cfg with page := some s }
        = .ok { status := 400, body := ("Invalid page param".toList), headers := [] })
    ∧ (pageCanonical s = true → ceilDiv paths.length cfg.maxPerPage < digitsToNat s →
      response allRoutes lc { cfg with page := some s }
        = .ok { status := 404, body := ("Page does not exist".toList), headers := [] }) := by
  have hoe : cfg.origin.isEmpty = false := by
    rw [List.isEmpty_eq_false]
    exact horigin
  have hse : s.isEmpty = false := by
    rw [List.isEmpty_eq_false]
    exact hsne
  have hassembled : assembledPaths allRoutes lc { cfg with page := some s }
      = Except.ok paths := hok
  constructor
  · intro hc
    unfold response
    rw [show ({ cfg with page := some s } : SitemapConfig).origin = cfg.origin from rfl]
    rw [hoe]
    simp only [Bool.false_eq_true, if_false]
    rw [hassembled]
    simp only [hse, Bool.false_eq_true, if_false, hc, Bool.not_false, if_true]
  · intro hc hgt
    unfold response
    rw [show ({ cfg with page := some s } : SitemapConfig).origin = cfg.origin from rfl]
    rw [hoe]
    simp only [Bool.false_eq_true, if_false]
    rw [hassembled]
    simp only [hse, Bool.false_eq_true, if_false, hc, Bool.not_true]
    rw [if_pos hgt]

/-- Witness for C4: with `totalPages = 2`, page `"0"` yields 400 and page
`"99"` yields 404 (neither throws). -/
theorem c4_page_param_witness :
    response
      [("/src/routes/+page.svelte".toList), ("/src/routes/about/+page.svelte".toList),
       ("/src/routes/blog/[slug]/+page.svelte".toList)]
      (fun _ _ => 0)
      { origin := ("https://example.com".toList), maxPerPage := 2, page := some ("0".toList),
        paramValues := [(("/blog/[slug]".toList), PVal.arr1 [("a".toList), ("b".toList)])] }
      = .ok { status := 400, body := ("Invalid page param".toList), headers := [] }
    ∧ response
      [("/src/routes/+page.svelte".toList), ("/src/routes/about/+page.svelte".toList),
       ("/src/routes/blog/[slug]/+page.svelte".toList)]
      (fun _ _ => 0)
      { origin := ("https://example.com".toList), maxPerPage := 2, page := some ("99".toList),
        paramValues := [(("/blog/[slug]".toList), PVal.arr1 [("a".toList), ("b".toList)])] }
      = .ok { status := 404, body := ("Page does not exist".toList), headers := [] } := by
  constructor
  · exact (c4_page_param
      [("/src/routes/+page.svelte".toList), ("/src/routes/about/+page.svelte".toList),
       ("/src/routes/blog/[slug]/+page.svelte".toList)]
      (fun _ _ => 0)
      { origin := ("https://example.com".toList), maxPerPage := 2,
        paramValues := [(("/blog/[slug]".toList), PVal.arr1 [("a".toList), ("b".toList)])] }
      [{ path := ("/".toList) }, { path := ("/about".toList) },
       { path := ("/blog/a".toList) }, { path := ("/blog/b".toList) }]
      ("0".toList) (by decide) (by decide) rfl (by decide)).1 rfl
  · exact (c4_page_param
      [("/src/routes/+page.svelte".toList), ("/src/routes/about/+page.svelte".toList),
       ("/src/routes/blog/[slug]/+page.svelte".toList)]
      (fun _ _ => 0)
      { origin := ("https://example.com".toList), maxPerPage := 2,
        paramValues := [(("/blog/[slug]".toList), PVal.arr1 [("a".toList), ("b".toList)])] }
      [{ path := ("/".toList) }, { path := ("/about".toList) },
       { path := ("/blog/a".toList) }, { path := ("/blog/b".toList) }]
      ("99".toList) (by decide) (by decide) rfl (by decide)).2 rfl (by decide)

theorem insertSorted_perm (le : Str → Str → Bool) (x : Str) (l : List Str) :
    (insertSorted le x l).Perm (x :: l) := by
  induction l with
  | nil => exact List.Perm.refl _
  | cons y rest ih =>
    rw [insertSorted]
    by_cases h : le x y = true
    · rw [if_pos h]
    · rw [if_neg h]
      exact (List.Perm.cons y ih).trans (List.Perm.swap x y rest)

theorem sortLex_perm (l : List Str) : (sortLex l).Perm l := by
  induction l with
  | nil => exact List.Perm.refl _
  | cons a t ih =>
    exact (insertSorted_perm lexLe a (sortLex t)).trans (List.Perm.cons a ih)

theorem lexLe_total (a b : Str) : lexLe a b = true ∨ lexLe b a = true := by
  induction a generalizing b with
  | nil => exact Or.inl rfl
  | cons x xs ih =>
    cases b with
    | nil => exact Or.inr rfl
    | cons y ys =>
      by_cases hxy : x = y
      · subst hxy
        rcases ih ys with h | h
        · exact Or.inl (by rw [lexLe, if_pos rfl]; exact h)
        · exact Or.inr (by rw [lexLe, if_pos rfl]; exact h)
      · rcases lt_or_gt_of_ne hxy with h | h
        · exact Or.inl (by rw [lexLe, if_neg hxy]; exact decide_eq_true h)
        · refine Or.inr ?_
          rw [lexLe, if_neg (Ne.symm hxy)]
          exact decide_eq_true h

theorem lexLe_trans (a b c : Str) (h1 : lexLe a b = true) (h2 : lexLe b c = true) :
    lexLe a c = true := by
  induction a generalizing b c with
  | nil => rfl
  | cons x xs ih =>
    cases b with
    | nil => exact absurd h1 (by rw [lexLe]; exact Bool.false_ne_true)
    | cons y ys =>
      cases c with
      | nil => exact absurd h2 (by rw [lexLe]; exact Bool.false_ne_true)
      | cons z zs =>
        rw [lexLe] at h1 h2 ⊢
        by_cases hxy : x = y
        · rw [if_pos hxy] at h1
          by_cases hyz : y = z
          · rw [if_pos hyz] at h2
            rw [if_pos (hxy.trans hyz)]
            exact ih ys zs h1 h2
          · rw [if_neg hyz] at h2
            have hyltz : y < z := of_decide_eq_true h2
            have hxz : x ≠ z := fun he => hyz (hxy ▸ he)
            rw [if_neg hxz]
            exact decide_eq_true (hxy ▸ hyltz)
        · rw [if_neg hxy] at h1
          have hxlty : x < y := of_decide_eq_true h1
          by_cases hyz : y = z
          · have hxz : x ≠ z := fun he => hxy (he.trans hyz.symm)
            rw [if_neg hxz]
            exact decide_eq_true (hyz ▸ hxlty)
          · rw [if_neg hyz] at h2
            have hyltz : y < z := of_decide_eq_true h2
            have hxltz : x < z := lt_trans hxlty hyltz
            rw [if_neg (ne_of_lt hxltz)]
            exact decide_eq_true hxltz

theorem mem_insertSorted (le : Str → Str → Bool) (x z : Str) (l : List Str) :
    z ∈ insertSorted le x l ↔ z = x ∨ z ∈ l := by
  constructor
  · intro h
    have := (insertSorted_perm le x l).mem_iff.mp h
    rcases List.mem_cons.mp this with h | h
    · exact Or.inl h
    · exact Or.inr h
  · intro h
    refine (insertSorted_perm le x l).mem_iff.mpr ?_
    rcases h with h | h
    · exact h ▸ List.mem_cons_self _ _
    · exact List.mem_cons_of_mem _ h

theorem insertSorted_sorted (x : Str) (l : List Str)
    (h : List.Pairwise (fun a b => lexLe a b = true) l) :
    List.Pairwise (fun a b => lexLe a b = true) (insertSorted lexLe x l) := by
  induction l with
  | nil => exact List.pairwise_singleton _ _
  | cons y rest ih =>
    rw [insertSorted]
    by_cases hxy : lexLe x y = true
    · rw [if_pos hxy]
      refine List.Pairwise.cons ?_ h
      intro z hz
      rcases List.mem_cons.mp hz with rfl | hz
      · exact hxy
      · exact lexLe_trans x y z hxy ((List.pairwise_cons.mp h).1 z hz)
    · rw [if_neg hxy]
      have hyx : lexLe y x = true := (lexLe_total x y).resolve_left hxy
      refine List.Pairwise.cons ?_ (ih (List.pairwise_cons.mp h).2)
      intro z hz
      rcases (mem_insertSorted lexLe x z rest).mp hz with rfl | hz
      · exact hyx
      · exact (List.pairwise_cons.mp h).1 z hz

theorem sortLex_sorted (l : List Str) :
    List.Pairwise (fun a b => lexLe a b = true) (sortLex l) := by
  induction l with
  | nil => exact List.Pairwise.nil
  | cons a t ih => exact insertSorted_sorted a (sortLex t) ih

/-- C7: route normalization strips the host prefix/suffix decoration first,
then tests exclusion patterns (against the pre-group-strip form), then strips
group segments and sorts.  A path is in the output iff it arises from a raw
route whose normalized (pre-group-strip) form matches no exclusion pattern;
exactly the non-excluded routes survive (none dropped otherwise); the result
is sorted. -/
theorem c7_filter_routes_pipeline (routes : List Str) (excl : List (Str → Bool)) :
    (∀ y : Str, y ∈ filterRoutes routes excl ↔
        ∃ r ∈ routes, (excl.any (fun pat => pat (normalizeRoute r))) = false
          ∧ y = stripGroupsRoute (normalizeRoute r))
    ∧ (filterRoutes routes excl).length
        = (routes.filter (fun r => !(excl.any (fun pat => pat (normalizeRoute r))))).length
    ∧ List.Pairwise (fun a b => lexLe a b = true) (filterRoutes routes excl) := by
  have hperm : (filterRoutes routes excl).Perm
      (((routes.map normalizeRoute).filter
        (fun x => !(excl.any (fun pat => pat x)))).map stripGroupsRoute) := by
    unfold filterRoutes
    exact sortLex_perm _
  refine ⟨?_, ?_, ?_⟩
  · intro y
    rw [hperm.mem_iff]
    constructor
    · intro hy
      obtain ⟨x, hx, rfl⟩ := List.mem_map.mp hy
      have hx2 := List.mem_filter.mp hx
      obtain ⟨r, hr, rfl⟩ := List.mem_map.mp hx2.1
      refine ⟨r, hr, ?_, rfl⟩
      have := hx2.2
      simpa using this
    · rintro ⟨r, hr, hex, rfl⟩
      refine List.mem_map.mpr ⟨normalizeRoute r, ?_, rfl⟩
      refine List.mem_filter.mpr ⟨List.mem_map.mpr ⟨r, hr, rfl⟩, ?_⟩
      simpa using hex
  · rw [hperm.length_eq, List.length_map, List.filter_map, List.length_map]
    simp [Function.comp_def]
  · unfold filterRoutes
    exact sortLex_sorted _

theorem findClose_prefix (u : Str) (hn : ']' ∉ u) (rest : Str) :
    findClose (u ++ ']' :: rest) = some u.length := by
  induction u with
  | nil => simp [findClose]
  | cons c t ih =>
    have hc : c ≠ ']' := fun h => hn (h ▸ List.mem_cons_self _ _)
    rw [List.cons_append, findClose, if_neg hc, ih (fun h => hn (List.mem_cons_of_mem _ h))]
    simp [Nat.add_comm]

theorem findAdj2_prefix (u : Str) (hn : ']' ∉ u) (rest : Str) :
    findAdj2 (u ++ ']' :: ']' :: rest) = some u.length := by
  induction u with
  | nil => simp [findAdj2]
  | cons c t ih =>
    have hc : c ≠ ']' := fun h => hn (h ▸ List.mem_cons_self _ _)
    rw [List.cons_append, findAdj2, if_neg (fun h => hc h.1),
      ih (fun h => hn (List.mem_cons_of_mem _ h))]
    simp [Nat.add_comm]

theorem paramTokenLen_no_bracket (c : Char) (rest : Str) (h : c ≠ '[') :
    paramTokenLen (c :: rest) = none := by
  rw [paramTokenLen, if_neg h]

theorem paramTokenLen_tok1 (nm : Str) (rest : Str) (h1 : nm ≠ []) (h2 : '[' ∉ nm)
    (h3 : ']' ∉ nm) :
    paramTokenLen (('[' :: nm) ++ (']' :: rest)) = some (nm.length + 2) := by
  obtain ⟨n0, ntail, rfl⟩ : ∃ n0 ntail, nm = n0 :: ntail := by
    cases nm with
    | nil => exact absurd rfl h1
    | cons a b => exact ⟨a, b, rfl⟩
  have hn0 : n0 ≠ '[' := fun h => h2 (h ▸ List.mem_cons_self _ _)
  have hshape : (('[' :: (n0 :: ntail)) ++ (']' :: rest) : Str)
      = '[' :: n0 :: (ntail ++ ']' :: rest) := by simp
  rw [hshape]
  simp [paramTokenLen, hn0,
    findClose_prefix ntail (fun h => h3 (List.mem_cons_of_mem _ h)) rest]

theorem paramTokenLen_tok2 (nm : Str) (rest : Str) (h1 : nm ≠ []) (h3 : ']' ∉ nm) :
    paramTokenLen (mkOpt nm ++ rest) = some (nm.length + 4) := by
  obtain ⟨n0, ntail, rfl⟩ : ∃ n0 ntail, nm = n0 :: ntail := by
    cases nm with
    | nil => exact absurd rfl h1
    | cons a b => exact ⟨a, b, rfl⟩
  have hshape : (mkOpt (n0 :: ntail) ++ rest : Str)
      = '[' :: '[' :: n0 :: (ntail ++ ']' :: ']' :: rest) := by
    rw [mkOpt_cons]
    rw [show ("]]".toList : Str) = [']', ']'] from rfl]
    simp
  rw [hshape]
  simp [paramTokenLen, findAdj2_prefix ntail (fun h => h3 (List.mem_cons_of_mem _ h)) rest]

theorem paramTokenLen_pos {s : Str} {len : Nat} (h : paramTokenLen s = some len) :
    1 ≤ len := by
  cases s with
  | nil => simp [paramTokenLen] at h
  | cons c rest =>
    rw [paramTokenLen] at h
    by_cases hc : c = '['
    · rw [if_pos hc] at h
      cases hadj : (if rest.headD ' ' = '[' then
          (match rest.tail with | [] => none | _ :: r2 => findAdj2 r2) else none) with
      | some j =>
        rw [hadj] at h
        simp at h
        omega
      | none =>
        rw [hadj] at h
        cases hfc : findClose rest.tail with
        | some j => rw [hfc] at h; simp at h; omega
        | none => rw [hfc] at h; simp at h
    · rw [if_neg hc] at h
      exact absurd h (by simp)

theorem replaceParamTokensAux_fuel (fuel1 : Nat) :
    ∀ (s : Str) (fuel2 : Nat) (vals : List Str) (i : Nat),
      s.length ≤ fuel1 → s.length ≤ fuel2 →
      replaceParamTokensAux fuel1 s vals i = replaceParamTokensAux fuel2 s vals i := by
  induction fuel1 with
  | zero =>
    intro s fuel2 vals i h1 _
    have : s = [] := List.length_eq_zero.mp (by omega)
    subst this
    cases fuel2 <;> rfl
  | succ f ih =>
    intro s fuel2 vals i h1 h2
    cases s with
    | nil => cases fuel2 <;> rfl
    | cons c rest =>
      obtain ⟨g, rfl⟩ : ∃ g, fuel2 = g + 1 := by
        cases fuel2 with
        | zero => simp at h2
        | succ g => exact ⟨g, rfl⟩
      rw [replaceParamTokensAux, replaceParamTokensAux]
      cases htok : paramTokenLen (c :: rest) with
      | none =>
        rw [List.length_cons] at h1 h2
        have hr := ih rest g vals i (by omega) (by omega)
        show c :: replaceParamTokensAux f rest vals i = c :: replaceParamTokensAux g rest vals i
        rw [hr]
      | some len =>
        have hp := paramTokenLen_pos htok
        rw [List.length_cons] at h1 h2
        have hd : ((c :: rest).drop len).length ≤ f := by
          rw [List.length_drop, List.length_cons]
          omega
        have hd2 : ((c :: rest).drop len).length ≤ g := by
          rw [List.length_drop, List.length_cons]
          omega
        have hih := ih ((c :: rest).drop len) g vals (i + 1) hd hd2
        show vals.getD i [] ++ replaceParamTokensAux f ((c :: rest).drop len) vals (i + 1)
            = vals.getD i [] ++ replaceParamTokensAux g ((c :: rest).drop len) vals (i + 1)
        rw [hih]

theorem rpt_no_bracket (u : Str) (hu : '[' ∉ u) :
    ∀ (fuel : Nat) (rest : Str) (vals : List Str) (i : Nat),
      (u ++ rest).length ≤ fuel →
      replaceParamTokensAux fuel (u ++ rest) vals i
        = u ++ replaceParamTokensAux (fuel - u.length) rest vals i := by
  induction u with
  | nil =>
    intro fuel rest vals i _
    simp
  | cons c t ih =>
    intro fuel rest vals i h
    obtain ⟨f, rfl⟩ : ∃ f, fuel = f + 1 := by
      cases fuel with
      | zero => rw [List.length_append, List.length_cons] at h; omega
      | succ f => exact ⟨f, rfl⟩
    rw [List.cons_append, replaceParamTokensAux]
    have hc : c ≠ '[' := fun he => hu (he ▸ List.mem_cons_self _ _)
    rw [paramTokenLen_no_bracket c _ hc]
    show c :: replaceParamTokensAux f (t ++ rest) vals i
        = (c :: t) ++ replaceParamTokensAux (f + 1 - (c :: t).length) rest vals i
    rw [ih (fun hm => hu (List.mem_cons_of_mem _ hm)) f rest vals i
      (by rw [List.cons_append, List.length_cons, List.length_append] at h
          rw [List.length_append]
          omega)]
    rw [List.length_cons, show f + 1 - (t.length + 1) = f - t.length by omega]
    rfl

theorem rpt_segs (segs : List Seg) :
    ∀ (vals : List Str) (i : Nat) (fuel : Nat),
      (∀ g ∈ segs, segOk g) → (joinSegs (segs.map segStr)).length ≤ fuel →
      replaceParamTokensAux fuel (joinSegs (segs.map segStr)) vals i
        = joinSegs (substSegs segs vals i) := by
  induction segs with
  | nil =>
    intro vals i fuel _ _
    cases fuel <;> rfl
  | cons g rest ih =>
    intro vals i fuel hok hfuel
    have hokrest : ∀ x ∈ rest, segOk x := fun x hx => hok x (List.mem_cons_of_mem _ hx)
    have hokg := hok g (List.mem_cons_self _ _)
    rw [List.map_cons, joinSegs_cons] at hfuel ⊢
    obtain ⟨f, rfl⟩ : ∃ f, fuel = f + 1 := by
      cases fuel with
      | zero => rw [List.length_cons] at hfuel; omega
      | succ f => exact ⟨f, rfl⟩
    rw [replaceParamTokensAux]
    rw [paramTokenLen_no_bracket '/' _ (by decide)]
    rw [List.length_cons] at hfuel
    cases g with
    | fixd s =>
      show '/' :: replaceParamTokensAux f (segStr (Seg.fixd s) ++ joinSegs (rest.map segStr)) vals i
          = joinSegs (substSegs (Seg.fixd s :: rest) vals i)
      rw [show segStr (Seg.fixd s) = s from rfl]
      rw [show segStr (Seg.fixd s) = s from rfl] at hfuel
      obtain ⟨hb, _, _⟩ := hokg
      have hfuel2 : (s ++ joinSegs (rest.map segStr)).length ≤ f := by omega
      rw [rpt_no_bracket s hb f (joinSegs (rest.map segStr)) vals i hfuel2]
      rw [ih vals i (f - s.length) hokrest
        (by rw [List.length_append] at hfuel2; omega)]
      rw [show substSegs (Seg.fixd s :: rest) vals i = s :: substSegs rest vals i from rfl,
        joinSegs_cons]
    | tok1 nm =>
      obtain ⟨hne, hnb, hnc, _⟩ := hokg
      show '/' :: replaceParamTokensAux f (segStr (Seg.tok1 nm) ++ joinSegs (rest.map segStr)) vals i
          = joinSegs (substSegs (Seg.tok1 nm :: rest) vals i)
      have hshape : segStr (Seg.tok1 nm) ++ joinSegs (rest.map segStr)
          = ('[' :: nm) ++ (']' :: joinSegs (rest.map segStr)) := by
        rw [show segStr (Seg.tok1 nm) = ('[' :: nm) ++ ("]".toList) from rfl]
        simp
      rw [hshape]
      have hlen : (('[' :: nm) ++ (']' :: joinSegs (rest.map segStr))).length ≤ f := by
        rw [hshape] at hfuel
        omega
      obtain ⟨f2, rfl⟩ : ∃ f2, f = f2 + 1 := by
        cases f with
        | zero => rw [List.cons_append, List.length_cons] at hlen; omega
        | succ f2 => exact ⟨f2, rfl⟩
      have htok := paramTokenLen_tok1 nm (joinSegs (rest.map segStr)) hne hnb hnc
      rw [List.cons_append] at htok ⊢
      rw [replaceParamTokensAux, htok]
      show '/' :: (vals.getD i []
          ++ replaceParamTokensAux f2
            (('[' :: (nm ++ ']' :: joinSegs (rest.map segStr))).drop (nm.length + 2)) vals (i + 1))
        = joinSegs (substSegs (Seg.tok1 nm :: rest) vals i)
      have hdrop : ('[' :: (nm ++ ']' :: joinSegs (rest.map segStr))).drop (nm.length + 2)
          = joinSegs (rest.map segStr) := by
        rw [show ('[' :: (nm ++ ']' :: joinSegs (rest.map segStr)) : Str)
            = (('[' :: nm) ++ [']']) ++ joinSegs (rest.map segStr) by simp]
        rw [show nm.length + 2 = (('[' :: nm) ++ [']'] : Str).length by
          simp only [List.length_append, List.length_cons, List.length_nil]]
        exact List.drop_left _ _
      rw [hdrop]
      rw [ih vals (i + 1) f2 hokrest
        (by rw [List.cons_append, List.length_cons, List.length_append, List.length_cons] at hlen
            omega)]
      rw [show substSegs (Seg.tok1 nm :: rest) vals i
          = vals.getD i [] :: substSegs rest vals (i + 1) from rfl, joinSegs_cons]
    | tok2 nm =>
      obtain ⟨hne, hnb, hnc, _⟩ := hokg
      show '/' :: replaceParamTokensAux f (segStr (Seg.tok2 nm) ++ joinSegs (rest.map segStr)) vals i
          = joinSegs (substSegs (Seg.tok2 nm :: rest) vals i)
      rw [show segStr (Seg.tok2 nm) = mkOpt nm from rfl]
      rw [show segStr (Seg.tok2 nm) = mkOpt nm from rfl] at hfuel
      have hmklen : (mkOpt nm).length = nm.length + 4 := by
        rw [mkOpt, show ("]]".toList : Str) = [']', ']'] from rfl]
        simp only [List.length_append, List.length_cons, List.length_nil]
      have hlen : (mkOpt nm ++ joinSegs (rest.map segStr)).length ≤ f := by omega
      obtain ⟨f2, rfl⟩ : ∃ f2, f = f2 + 1 := by
        cases f with
        | zero =>
          rw [List.length_append, hmklen] at hlen
          omega
        | succ f2 => exact ⟨f2, rfl⟩
      have htok := paramTokenLen_tok2 nm (joinSegs (rest.map segStr)) hne hnc
      rw [mkOpt_cons] at htok ⊢
      rw [replaceParamTokensAux, htok]
      show '/' :: (vals.getD i []
          ++ replaceParamTokensAux f2
            (('[' :: '[' :: (nm ++ ("]]".toList) ++ joinSegs (rest.map segStr))).drop (nm.length + 4))
            vals (i + 1))
        = joinSegs (substSegs (Seg.tok2 nm :: rest) vals i)
      have hdrop : ('[' :: '[' :: (nm ++ ("]]".toList) ++ joinSegs (rest.map segStr))).drop (nm.length + 4)
          = joinSegs (rest.map segStr) := by
        rw [show ('[' :: '[' :: (nm ++ ("]]".toList) ++ joinSegs (rest.map segStr)) : Str)
            = (('[' :: '[' :: nm) ++ ("]]".toList)) ++ joinSegs (rest.map segStr) by simp]
        rw [show nm.length + 4 = ((('[' :: '[' :: nm) ++ ("]]".toList)) : Str).length by
          rw [show ("]]".toList : Str) = [']', ']'] from rfl]
          simp only [List.length_append, List.length_cons, List.length_nil]]
        exact List.drop_left _ _
      rw [hdrop]
      rw [ih vals (i + 1) f2 hokrest
        (by rw [List.length_append, hmklen] at hlen; omega)]
      rw [show substSegs (Seg.tok2 nm :: rest) vals i
          = vals.getD i [] :: substSegs rest vals (i + 1) from rfl, joinSegs_cons]

/-- C9: for a tuple-valued or record-valued parameter source, binding is
positional via `vals.getD i []`: a token whose value is missing (short tuple)
or empty is replaced by the empty string (`values[i++] || ''`), no error is
raised (the binder returns `.ok`), and the resulting concrete path can
contain empty segments.  `substSegs` spells out the per-token substitution. -/
theorem c9_short_tuple_binding (segs : List Seg) (rows : List (List Str))
    (items : List ParamValue) (dc dp : Option Str)
    (hok : ∀ g ∈ segs, segOk g)
    (hlang : langFind (joinSegs (segs.map segStr)) = none) :
    generatePathsWithParamValues [joinSegs (segs.map segStr)]
        [(joinSegs (segs.map segStr), PVal.arr2 rows)] dc dp
      = .ok ([], rows.map (fun row =>
          { changefreq := dc, lastmod := none, priority := dp,
            path := joinSegs (substSegs segs row 0) }))
    ∧ generatePathsWithParamValues [joinSegs (segs.map segStr)]
        [(joinSegs (segs.map segStr), PVal.objs items)] dc dp
      = .ok ([], items.map (fun item =>
          { changefreq := match item.changefreq with | some c => some c | none => dc,
            lastmod := item.lastmod,
            priority := match item.priority with | some p => some p | none => dp,
            path := joinSegs (substSegs segs item.values 0) })) := by
  have hroute : langReplace (joinSegs (segs.map segStr)) [] = joinSegs (segs.map segStr) := by
    unfold langReplace
    rw [hlang]
  have hrpt : ∀ vals : List Str, replaceParamTokens (joinSegs (segs.map segStr)) vals
      = joinSegs (substSegs segs vals 0) := by
    intro vals
    unfold replaceParamTokens
    exact rpt_segs segs vals 0 _ hok (le_refl _)
  have hsplice : spliceRemove [joinSegs (segs.map segStr)] (joinSegs (segs.map segStr)) = [] := by
    unfold spliceRemove
    simp [jsArrayIndexOf]
  constructor
  · unfold generatePathsWithParamValues
    rw [show (([(joinSegs (segs.map segStr), PVal.arr2 rows)] : ParamValues).find?
        (fun kv => !(decide (kv.1 ∈ [joinSegs (segs.map segStr)])))) = none by simp]
    simp only [List.foldl_cons, List.foldl_nil, pvStep, hlang, hroute, hsplice]
    simp only [List.filter_nil, List.map_nil, List.find?_nil, List.nil_append]
    refine congrArg Except.ok (Prod.ext rfl ?_)
    simp only [List.append_nil]
    refine List.map_congr_left ?_
    intro row _
    rw [hrpt row]
  · unfold generatePathsWithParamValues
    rw [show (([(joinSegs (segs.map segStr), PVal.objs items)] : ParamValues).find?
        (fun kv => !(decide (kv.1 ∈ [joinSegs (segs.map segStr)])))) = none by simp]
    simp only [List.foldl_cons, List.foldl_nil, pvStep, hlang, hroute, hsplice]
    simp only [List.filter_nil, List.map_nil, List.find?_nil, List.nil_append]
    refine congrArg Except.ok (Prod.ext rfl ?_)
    simp only [List.append_nil]
    refine List.map_congr_left ?_
    intro item _
    rw [hrpt item.values]

/-- Witness for C9: route `/c/[x]/[y]` with the single short tuple `["a"]`
binds to `/c/a/` (trailing empty segment) without error. -/
theorem c9_short_tuple_binding_witness :
    generatePathsWithParamValues
        [joinSegs (([Seg.fixd ("c".toList), Seg.tok1 ("x".toList), Seg.tok1 ("y".toList)]).map segStr)]
        [(joinSegs (([Seg.fixd ("c".toList), Seg.tok1 ("x".toList), Seg.tok1 ("y".toList)]).map segStr),
          PVal.arr2 [[("a".toList)]])] none none
      = .ok ([], [{ changefreq := none, lastmod := none, priority := none,
                    path := ("/c/a/".toList) }]) := by
  have h := (c9_short_tuple_binding
    ([Seg.fixd ("c".toList), Seg.tok1 ("x".toList), Seg.tok1 ("y".toList)])
    ([[("a".toList)]]) [] none none (by decide) (by decide)).1
  rw [h]
  rfl

theorem pvStep_routes (dc dp : Option Str) (st : List PathObj × List PathObj × List Str)
    (kv : Str × PVal) : (pvStep dc dp st kv).2.2 = spliceRemove st.2.2 kv.1 := by
  cases h : langFind kv.1 with
  | none => simp [pvStep, h]
  | some p => simp [pvStep, h]

theorem jsArrayIndexOf_isSome {t : List Str} {key : Str} (h : key ∈ t) :
    ∃ i, jsArrayIndexOf key t = some i := by
  induction t with
  | nil => exact absurd h (List.not_mem_nil key)
  | cons a t ih =>
    rw [jsArrayIndexOf]
    by_cases ha : a = key
    · exact ⟨0, by rw [if_pos ha]⟩
    · have hkt : key ∈ t := by
        rcases List.mem_cons.mp h with h2 | h2
        · exact absurd h2.symm ha
        · exact h2
      obtain ⟨i, hi⟩ := ih hkt
      refine ⟨i + 1, ?_⟩
      rw [if_neg ha, hi]
      rfl

theorem mem_spliceRemove {routes : List Str} {key r : Str}
    (hkey : key ∈ routes) (hr : r ∈ routes) (hne : r ≠ key) :
    r ∈ spliceRemove routes key := by
  induction routes with
  | nil => exact absurd hr (List.not_mem_nil r)
  | cons a t ih =>
    unfold spliceRemove
    rw [jsArrayIndexOf]
    by_cases ha : a = key
    · rw [if_pos ha]
      show r ∈ (a :: t).eraseIdx 0
      rw [List.eraseIdx_cons_zero]
      rcases List.mem_cons.mp hr with rfl | hrt
      · exact absurd ha hne
      · exact hrt
    · rw [if_neg ha]
      have hkt : key ∈ t := by
        rcases List.mem_cons.mp hkey with h | h
        · exact absurd h.symm ha
        · exact h
      obtain ⟨i, hi⟩ := jsArrayIndexOf_isSome hkt
      rw [hi]
      show r ∈ (a :: t).eraseIdx (i + 1)
      rw [List.eraseIdx_cons_succ]
      rcases List.mem_cons.mp hr with rfl | hrt
      · exact List.mem_cons_self _ _
      · refine List.mem_cons_of_mem _ ?_
        have hmem := ih hkt hrt
        unfold spliceRemove at hmem
        rw [hi] at hmem
        exact hmem

theorem pv_fold_mem (dc dp : Option Str) (r : Str) :
    ∀ (pv : ParamValues) (st : List PathObj × List PathObj × List Str),
      (∀ kv ∈ pv, kv.1 ∈ st.2.2) → (pv.map (·.1)).Nodup →
      (∀ kv ∈ pv, kv.1 ≠ r) → r ∈ st.2.2 →
      r ∈ (pv.foldl (pvStep dc dp) st).2.2 := by
  intro pv
  induction pv with
  | nil =>
    intro st _ _ _ hr
    exact hr
  | cons kv pv ih =>
    intro st hkeys hnd hner hr
    rw [List.map_cons, List.nodup_cons] at hnd
    rw [List.foldl_cons]
    refine ih (pvStep dc dp st kv) ?_ hnd.2 (fun kv2 h => hner kv2 (List.mem_cons_of_mem _ h)) ?_
    · intro kv2 hkv2
      rw [pvStep_routes]
      have hne2 : kv2.1 ≠ kv.1 := fun he =>
        hnd.1 (he ▸ List.mem_map.mpr ⟨kv2, hkv2, rfl⟩)
      exact mem_spliceRemove (hkeys kv (List.mem_cons_self _ _))
        (hkeys kv2 (List.mem_cons_of_mem _ hkv2)) hne2
    · rw [pvStep_routes]
      exact mem_spliceRemove (hkeys kv (List.mem_cons_self _ _)) hr
        (fun he => hner kv (List.mem_cons_self _ _) he.symm)

/-- C1: generation throws a fatal error and produces no sitemap body whenever
any of these holds: `origin` is missing; the route set after exclusion
filtering and optional-parameter expansion still contains a route with an
unresolved non-language token and no `paramValues` entry; `paramValues`
contains a key matching no route in that set; or some route contains the
language token while no language configuration is supplied.  The offending
route is never silently dropped: generation aborts as a whole.  (JS object
keys are unique, whence the `Nodup` hypothesis on the `paramValues` keys.) -/
theorem c1_configuration_errors (allRoutes : List Str) (lc : Str → Str → Int)
    (cfg : SitemapConfig) (hnd : (cfg.paramValues.map (fun kv => kv.1)).Nodup)
    (hcond :
      cfg.origin = []
      ∨ ((∃ r ∈ allRoutes, (langFind r).isSome) ∧ cfg.lang = none)
      ∨ (∃ kv ∈ cfg.paramValues,
          kv.1 ∉ processRoutesForOptionalParams (filterRoutes allRoutes cfg.excludeRoutePatterns))
      ∨ (∃ r ∈ processRoutesForOptionalParams (filterRoutes allRoutes cfg.excludeRoutePatterns),
          tokenTest (if (langReplace r []).isEmpty then ("/".toList) else langReplace r []) = true
          ∧ ∀ kv ∈ cfg.paramValues, kv.1 ≠ r)) :
    ∃ e, response allRoutes lc cfg = .error e := by
  by_cases ho : cfg.origin = []
  · refine ⟨("Sitemap: `origin` property is required in sitemap config.".toList), ?_⟩
    unfold response
    rw [if_pos (by rw [ho]; rfl)]
  · have hgen : ∃ e, generatePaths allRoutes cfg.excludeRoutePatterns cfg.paramValues cfg.lang
        cfg.defaultChangefreq cfg.defaultPriority = .error e := by
      rcases hcond with h | hd | hc | hb
      · exact absurd h ho
      · refine ⟨("Must specify `lang` property within the sitemap config because one or more routes contain [[lang]].".toList), ?_⟩
        simp only [generatePaths]
        rw [if_pos ?hcnd]
        case hcnd =>
          obtain ⟨r, hr, hs⟩ := hd.1
          rw [hd.2]
          simp only [Bool.and_eq_true]
          exact ⟨List.any_eq_true.mpr ⟨r, hr, hs⟩, trivial⟩
      · by_cases hl : (allRoutes.any (fun r => (langFind r).isSome)
            && (match cfg.lang with
                | none => true
                | some l => l.dflt.isEmpty || l.alternates.isEmpty)) = true
        · refine ⟨("Must specify `lang` property within the sitemap config because one or more routes contain [[lang]].".toList), ?_⟩
          simp only [generatePaths]
          rw [if_pos hl]
        · obtain ⟨kv, hkv, hnot⟩ := hc
          have hfs : (cfg.paramValues.find? (fun kv => !(decide (kv.1 ∈
              processRoutesForOptionalParams
                (filterRoutes allRoutes cfg.excludeRoutePatterns))))).isSome :=
            List.find?_isSome.mpr ⟨kv, hkv, by simp [hnot]⟩
          obtain ⟨kv2, hfind⟩ := Option.isSome_iff_exists.mp hfs
          refine ⟨("Sitemap: paramValues were provided for a route that does not exist within src/routes/".toList), ?_⟩
          simp only [generatePaths]
          rw [if_neg hl]
          simp only [generatePathsWithParamValues, hfind]
      · by_cases hl : (allRoutes.any (fun r => (langFind r).isSome)
            && (match cfg.lang with
                | none => true
                | some l => l.dflt.isEmpty || l.alternates.isEmpty)) = true
        · refine ⟨("Must specify `lang` property within the sitemap config because one or more routes contain [[lang]].".toList), ?_⟩
          simp only [generatePaths]
          rw [if_pos hl]
        · obtain ⟨r, hrmem, htest, hnokey⟩ := hb
          cases hfind : (cfg.paramValues.find? (fun kv => !(decide (kv.1 ∈
              processRoutesForOptionalParams (filterRoutes allRoutes cfg.excludeRoutePatterns))))) with
          | some kv2 =>
            refine ⟨("Sitemap: paramValues were provided for a route that does not exist within src/routes/".toList), ?_⟩
            simp only [generatePaths]
            rw [if_neg hl]
            simp only [generatePathsWithParamValues, hfind]
          | none =>
            have hallkeys : ∀ kv ∈ cfg.paramValues, kv.1 ∈
                processRoutesForOptionalParams (filterRoutes allRoutes cfg.excludeRoutePatterns) := by
              intro kv hkv
              have h2 := List.find?_eq_none.mp hfind kv hkv
              simpa using h2
            have hrfinal : r ∈ (cfg.paramValues.foldl
                (pvStep cfg.defaultChangefreq cfg.defaultPriority)
                ([], [], processRoutesForOptionalParams
                  (filterRoutes allRoutes cfg.excludeRoutePatterns))).2.2 :=
              pv_fold_mem cfg.defaultChangefreq cfg.defaultPriority r cfg.paramValues
                ([], [], processRoutesForOptionalParams
                  (filterRoutes allRoutes cfg.excludeRoutePatterns))
                hallkeys hnd hnokey hrmem
            have hfs2 : (((cfg.paramValues.foldl
                (pvStep cfg.defaultChangefreq cfg.defaultPriority)
                ([], [], processRoutesForOptionalParams
                  (filterRoutes allRoutes cfg.excludeRoutePatterns))).2.2).find?
                (fun route => tokenTest (if (langReplace route []).isEmpty
                  then ("/".toList) else langReplace route []))).isSome :=
              List.find?_isSome.mpr ⟨r, hrfinal, htest⟩
            obtain ⟨x, hx⟩ := Option.isSome_iff_exists.mp hfs2
            refine ⟨("Sitemap: paramValues not provided for a parameterized route".toList), ?_⟩
            simp only [generatePaths]
            rw [if_neg hl]
            simp only [generatePathsWithParamValues, hfind, hx]
    obtain ⟨e, he⟩ := hgen
    refine ⟨e, ?_⟩
    unfold response
    rw [if_neg ?hne]
    case hne =>
      rw [List.isEmpty_eq_false.mpr ho]
      exact Bool.false_ne_true
    unfold assembledPaths
    rw [he]

theorem c1_configuration_errors_witness :
    ∃ e, response [("/src/routes/blog/[slug]/+page.svelte".toList)]
      (fun _ _ => (0 : Int)) { origin := ("https://example.com".toList) } = .error e :=
  c1_configuration_errors [("/src/routes/blog/[slug]/+page.svelte".toList)]
    (fun _ _ => (0 : Int)) { origin := ("https://example.com".toList) } (by decide)
    (Or.inr (Or.inr (Or.inr ⟨("/blog/[slug]".toList), by decide, by decide, by decide⟩)))
